import Mathlib

/-!
# Verification of the `el_price_checker` price-extraction and observation store

Shallow embedding of `src/el_price_checker/parse.py` and
`src/el_price_checker/db.py`.

Modelling conventions:
* Python strings are Lean `String`s; the few string operations the code uses
  (`replace`, `in`, `rfind`, `strip`, `lower`) are translated to executable
  Lean functions over `String.data`.
* Python `None` / optional values become `Option`.
* Python exceptions are made explicit: a function that can raise is embedded
  with result type `Except Unit _`, `.error ()` standing for a raised
  exception escaping the function.
* Python `float` arithmetic in the outlier guard is modelled by exact
  rationals (`ℚ`).  The median of a list of integers is a dyadic rational and
  is computed exactly by the `float` code; the `/ 6.0` and `* 6.0` bounds and
  their comparisons against integer candidates agree with the exact rational
  comparisons for all magnitudes that fit a `float`'s 53-bit significand.
* `decimal.Decimal` values (only used via `_decimal_to_cents`) are embedded
  precisely: sign/coefficient/exponent triples, `Infinity` and `NaN`, with the
  default context's 28-digit precision and half-even rounding.
* The SQLite database is a record of table contents; `ORDER BY ts DESC` is
  modelled as the total order (ts descending, id descending as tie-break),
  which is the scan order of the `(product_id, ts)` index the code creates.
-/

namespace ElPriceChecker

instance {α β} [DecidableEq α] [DecidableEq β] : DecidableEq (Except α β) :=
  fun x y =>
    match x, y with
    | .error a, .error b =>
      if h : a = b then .isTrue (by rw [h]) else .isFalse (by simpa using h)
    | .ok a, .ok b =>
      if h : a = b then .isTrue (by rw [h]) else .isFalse (by simpa using h)
    | .error _, .ok _ => .isFalse (by simp)
    | .ok _, .error _ => .isFalse (by simp)

/-- Characters treated as whitespace by Python's `str.strip()`, `str.isspace`
and the `re` module's `\s` class, restricted to the code points the model
covers (ASCII whitespace and the no-break space ` `, which the price
regex additionally lists explicitly; rarer Unicode space code points behave
identically in Python and are not distinguished by any code path here). -/
def pySpace (c : Char) : Bool :=
  c = ' ' || c = '\t' || c = '\n' || c = '\r' || c = '\x0b' || c = '\x0c' ||
    c = ' '

/-- Python `str.strip()`: drop leading and trailing whitespace. -/
def pyStrip (s : String) : String :=
  ⟨(s.data.dropWhile pySpace).reverse.dropWhile pySpace |>.reverse⟩

/-- Does `pat` occur as a contiguous run somewhere in `l`? -/
def listContainsSub (l pat : List Char) : Bool :=
  match l with
  | [] => pat.isEmpty
  | _ :: t => pat.isPrefixOf l || listContainsSub t pat

/-- Python `sub in s` substring containment. -/
def pyContains (s sub : String) : Bool :=
  listContainsSub s.data sub.data

/-- Python `str.rfind(c)` for a single-character needle: index of the last
occurrence, `-1` when absent. -/
def pyRfind (l : List Char) (c : Char) : Int :=
  match l with
  | [] => -1
  | a :: rest =>
    let r := pyRfind rest c
    if r ≥ 0 then r + 1 else if a = c then 0 else -1

/-- `parse._clean_number`: strip (no-break) spaces; when both `,` and `.`
occur, the one occurring last is the decimal point and the other is removed;
a lone `,` becomes the decimal point. -/
def cleanNumber (text : String) : String :=
  let t : List Char :=
    (text.data.map fun c => if c = ' ' then ' ' else c).filter (· ≠ ' ')
  if t.contains ',' ∧ t.contains '.' then
    if pyRfind t ',' > pyRfind t '.' then
      ⟨(t.filter (· ≠ '.')).map fun c => if c = ',' then '.' else c⟩
    else
      ⟨t.filter (· ≠ ',')⟩
  else if t.contains ',' then
    ⟨t.map fun c => if c = ',' then '.' else c⟩
  else ⟨t⟩

/-- Number of decimal digits of `n` (`1` for `0`), as used by `decimal`'s
precision accounting. -/
def numDigits (n : Nat) : Nat :=
  (Nat.toDigits 10 n).length

/-- Round `a / d` to the nearest natural number, ties to even (the `decimal`
module's default `ROUND_HALF_EVEN`); `d` is assumed positive. -/
def roundHalfEvenNatDiv (a d : Nat) : Nat :=
  let q := a / d
  let r := a % d
  if 2 * r < d then q
  else if 2 * r > d then q + 1
  else if q % 2 = 0 then q else q + 1

/-- A `decimal.Decimal` value: finite values are sign/coefficient/exponent
triples (value `±coeff·10^exp`), plus infinities and (signaling) NaNs.
NaN sign and diagnostic digits are irrelevant to the embedded code and
dropped. -/
inductive PyDec where
  | finite (neg : Bool) (coeff : Nat) (exp : Int)
  | inf (neg : Bool)
  | nan
  | snan
  deriving DecidableEq, Repr

/-- An optional leading `+`/`-` sign: returns (is-negative, rest). -/
def parseSign : List Char → Bool × List Char
  | '+' :: t => (false, t)
  | '-' :: t => (true, t)
  | l => (false, l)

/-- Digit string to value. -/
def digitsToNat (l : List Char) : Nat :=
  l.foldl (fun a c => a * 10 + (c.toNat - 48)) 0

/-- The numeric-string grammar accepted by the `Decimal` constructor:
whitespace-stripped and with all underscores removed, then
`[sign] (digits [. digits] | . digits) [E [sign] digits]`,
`[sign] Inf[inity]`, or `[sign] [s]NaN digits*`, case-insensitively.
(CPython additionally maps non-ASCII Unicode decimal digits to ASCII; such
inputs are outside this model.)  Returns `none` when the constructor would
raise `InvalidOperation` (which `_decimal_to_cents` catches). -/
def parseDecimal (value : String) : Option PyDec :=
  let l := (pyStrip value).data.filter (· ≠ '_')
  let (neg, rest) := parseSign l
  let low := rest.map Char.toLower
  if low = "inf".data ∨ low = "infinity".data then some (.inf neg)
  else if low.take 3 = "nan".data ∧ (low.drop 3).all Char.isDigit then
    some .nan
  else if low.take 4 = "snan".data ∧ (low.drop 4).all Char.isDigit then
    some .snan
  else
    let (ip, r1) := rest.span Char.isDigit
    let (fp, r2) :=
      match r1 with
      | '.' :: t => t.span Char.isDigit
      | _ => ([], r1)
    if ip.isEmpty ∧ fp.isEmpty then none
    else
      let expPart : Option Int :=
        match r2 with
        | [] => some 0
        | c :: t =>
          if c.toLower = 'e' then
            let (eneg, t2) := parseSign t
            if t2.isEmpty ∨ ¬ t2.all Char.isDigit then none
            else some (if eneg then -(digitsToNat t2 : Int) else digitsToNat t2)
          else none
      match expPart with
      | none => none
      | some e => some (.finite neg (digitsToNat (ip ++ fp)) (e - fp.length))

/-- `parse._decimal_to_cents`: `Decimal(value)` (an `InvalidOperation` here is
caught and becomes `None`), then `int((d * 100).quantize(Decimal("1")))` under
the default context (precision 28, `ROUND_HALF_EVEN`, `Emax = 999999`).
The multiplication rounds its result to 28 significant digits; `quantize`
raises `InvalidOperation` when the integral result needs more than 28 digits,
and infinities/NaNs make `quantize`/`int` raise.  Exceptions escaping the
function are `.error ()`.  (Sub-`Etiny` underflow clamping is untrapped and
cannot change the rounded integer result, and is not modelled.) -/
def decimalToCents (value : String) : Except Unit (Option Int) :=
  match parseDecimal value with
  | none => .ok none
  | some (.inf _) => .error ()
  | some .nan => .error ()
  | some .snan => .error ()
  | some (.finite neg c e) =>
    let c2 := c * 100
    let k := if numDigits c2 > 28 then numDigits c2 - 28 else 0
    let cr := roundHalfEvenNatDiv c2 (10 ^ k)
    -- rounding up can carry into a 29th digit (10^28); renormalize
    let cr2 := if numDigits cr > 28 then cr / 10 else cr
    let er : Int := if numDigits cr > 28 then e + k + 1 else e + k
    if er + numDigits cr2 - 1 > 999999 then .error ()
    else
      let n : Nat :=
        if 0 ≤ er then cr2 * 10 ^ er.toNat
        else roundHalfEvenNatDiv cr2 (10 ^ (-er).toNat)
      if numDigits n > 28 then .error ()
      else .ok (some (if neg then -(n : Int) else (n : Int)))

/-! ## The document model for `parse.extract_price`

`extract_price` consumes the raw HTML string plus the results of a fixed set
of `selectolax` queries and of `json.loads` on the JSON-LD script blocks.
Those library calls are the abstraction boundary of the embedding: a `Doc`
records the raw HTML together with each query's result, and the JSON values
are an explicit tree type. -/

/-- A Python value produced by `json.loads`: `None`, `bool`, `int`, `float`,
`str`, `list`, `dict`.  A float is modelled by its `str()` rendering together
with its truthiness (`0.0` is falsy), which is all the embedded code ever
inspects about a float. -/
inductive JVal where
  | null
  | boolean (b : Bool)
  | intNum (n : Int)
  | floatNum (repr : String) (isZero : Bool)
  | str (s : String)
  | arr (items : List JVal)
  | obj (fields : List (String × JVal))

/-- Python truthiness of a JSON value. -/
def jTruthy : JVal → Bool
  | .null => false
  | .boolean b => b
  | .intNum n => n ≠ 0
  | .floatNum _ z => !z
  | .str s => s ≠ ""
  | .arr xs => !xs.isEmpty
  | .obj fs => !fs.isEmpty

/-- `dict.get(key)` with default `None`: JSON object keys are unique, the
first binding wins.  An absent key and an explicit JSON `null` are both
Python `None`, hence both `.null` here. -/
def jGet (fields : List (String × JVal)) (key : String) : JVal :=
  match fields with
  | [] => .null
  | (k, v) :: rest => if k = key then v else jGet rest key

/-- `dict.get(key, default)` where presence matters (`None` only for an
explicitly stored `null`). -/
def jGetOpt (fields : List (String × JVal)) (key : String) : Option JVal :=
  match fields with
  | [] => none
  | (k, v) :: rest => if k = key then some v else jGetOpt rest key

/-- Python `str()` of the values that can reach it in `_parse_offer_price`
(`bool`, `int`, `float`; `isinstance(True, int)` holds, so booleans take the
numeric branch and render as `True`/`False`).  Containers cannot reach it;
their rendering is irrelevant and fixed to `""`. -/
def jStr : JVal → String
  | .boolean true => "True"
  | .boolean false => "False"
  | .intNum n => toString n
  | .floatNum r _ => r
  | .str s => s
  | _ => ""

/-- The Python object stored in `JVal` form into `ParsedPrice.currency` is
kept unchanged by the code; the model renders non-string values via their
`str()` form (no claim inspects a non-string currency). -/
def jCurrency : JVal → Option String
  | .null => none
  | .str s => some s
  | v => some (jStr v)

mutual

/-- `parse._walk`: depth-first pre-order traversal yielding every `dict`. -/
def walk : JVal → List JVal
  | .obj fs => .obj fs :: walkFields fs
  | .arr xs => walkItems xs
  | _ => []

def walkFields : List (String × JVal) → List JVal
  | [] => []
  | (_, v) :: rest => walk v ++ walkFields rest

def walkItems : List JVal → List JVal
  | [] => []
  | v :: rest => walk v ++ walkItems rest

end

/-- `parse.ParsedPrice`. -/
structure ParsedPrice where
  price_cents : Option Int
  currency : Option String
  title : Option String
  raw_price_text : Option String
  in_stock : Option Bool
  error : Option String := none
  deriving DecidableEq, Repr

/-- The inputs of `extract_price`: the raw HTML and the results of the
`selectolax`/`json` library calls it performs.
* `ogTitleContent`: `content` attribute of `meta[property="og:title"]`
  (`none` when the tag or the attribute is absent — indistinguishable
  downstream).
* `titleText` / `h1Text`: `(node.text() or "")` of the first `title` / `h1`
  node, `none` when no such node exists.
* `jsonld`: the successfully `json.loads`-parsed
  `script[type="application/ld+json"]` blocks, in document order (blocks that
  are empty or fail to parse are skipped by the code and likewise absent
  here).
* `metaAmountContent` / `metaCurrencyContent`: `content` attribute of the
  `product:price:amount` / `product:price:currency` meta tags.
* `textContent`: `doc.text(separator=" ")`, the tag-stripped document text. -/
structure Doc where
  html : String
  ogTitleContent : Option String
  titleText : Option String
  h1Text : Option String
  jsonld : List JVal
  metaAmountContent : Option String
  metaCurrencyContent : Option String
  textContent : String

/-- `<title>` / `<h1>` fallback of `parse._extract_title`: strip the node
text and use it when non-empty. -/
def titleFallback (d : Doc) : Option String :=
  match d.titleText with
  | some t =>
    if pyStrip t ≠ "" then some (pyStrip t)
    else
      match d.h1Text with
      | some h => if pyStrip h ≠ "" then some (pyStrip h) else none
      | none => none
  | none =>
    match d.h1Text with
    | some h => if pyStrip h ≠ "" then some (pyStrip h) else none
    | none => none

/-- `parse._extract_title`: `og:title` content (unstripped, when truthy),
else stripped `<title>` text, else stripped `<h1>` text, else `None`. -/
def extractTitle (d : Doc) : Option String :=
  match d.ogTitleContent with
  | some c => if c = "" then titleFallback d else some c
  | none => titleFallback d

/-- One step of `_parse_offer_price`'s offer loop: the price expression
`offer.get("price") or offer.get("priceSpecification", {}).get("price")`.
When the `price` value is falsy and `priceSpecification` is present but is
not a `dict` (including an explicit `null`), the `.get` call raises
`AttributeError`, which escapes `extract_price`. -/
def offerPriceExpr (fs : List (String × JVal)) : Except Unit JVal :=
  let a := jGet fs "price"
  if jTruthy a then .ok a
  else
    match jGetOpt fs "priceSpecification" with
    | none => .ok .null
    | some (.obj fs2) => .ok (jGet fs2 "price")
    | some _ => .error ()

/-- The `for offer in candidates` loop of `_parse_offer_price`: the first
offer dict exposing a non-`None` numeric or string `price` determines the
result (even when the price fails to normalize to cents). -/
def offerLoop : List JVal → Except Unit (Option Int × JVal × Option String)
  | [] => .ok (none, .null, none)
  | offer :: rest =>
    match offer with
    | .obj fs =>
      match offerPriceExpr fs with
      | .error () => .error ()
      | .ok price =>
        let currency := jGet fs "priceCurrency"
        match price with
        | .null => offerLoop rest
        | .boolean b =>
          (decimalToCents (jStr (.boolean b))).map
            fun cents => (cents, currency, some (jStr (.boolean b)))
        | .intNum n =>
          (decimalToCents (jStr (.intNum n))).map
            fun cents => (cents, currency, some (jStr (.intNum n)))
        | .floatNum r z =>
          (decimalToCents (jStr (.floatNum r z))).map
            fun cents => (cents, currency, some (jStr (.floatNum r z)))
        | .str s =>
          (decimalToCents (cleanNumber s)).map
            fun cents => (cents, currency, some s)
        | _ => offerLoop rest
    | _ => offerLoop rest

/-- `parse._parse_offer_price`. -/
def parseOfferPrice : JVal → Except Unit (Option Int × JVal × Option String)
  | .null => .ok (none, .null, none)
  | .arr xs => offerLoop xs
  | offers => offerLoop [offers]

/-- The JSON-LD tier of `extract_price`: walk all parsed blocks in order and
return the first walked dict whose `offers` yield a non-`None` cents value. -/
def jsonldScan : List JVal → Except Unit (Option (Int × JVal × Option String))
  | [] => .ok none
  | o :: rest =>
    match o with
    | .obj fs =>
      match parseOfferPrice (jGet fs "offers") with
      | .error () => .error ()
      | .ok (some c, cur, raw) => .ok (some (c, cur, raw))
      | .ok (none, _, _) => jsonldScan rest
    | _ => jsonldScan rest

/-! ## The free-text price regex

`_PRICE_RE = (?P<num>\d[\d\s\xa0.,]*)\s*(?P<cur>zł|PLN|EUR|€)` with
`re.IGNORECASE`.  The `num` class contains every `\s` character, the currency
tokens contain none and start with none, so backtracking never changes where
the currency token must start: `re.search` succeeds at the first position
holding a digit such that a currency token matches right after the maximal
run of `num`-class characters, `num` being that whole run (trailing spaces
included). -/

/-- The character class `[\d\s\xa0.,]` of the `num` group. -/
def numClass (c : Char) : Bool :=
  c.isDigit || pySpace c || c = '.' || c = ','

/-- Unicode-aware case folding for the characters the currency alternation
can meet (`re.IGNORECASE`); Lean's `Char.toLower` covers ASCII, `Ł` is the
one non-ASCII cased letter in the tokens. -/
def foldLower (c : Char) : Char :=
  if c = 'Ł' then 'ł' else c.toLower

/-- Case-insensitive token match at the head of `l`; returns the actually
matched characters (original case) on success. -/
def tokMatchAt : List Char → List Char → Option (List Char)
  | _, [] => some []
  | [], _ :: _ => none
  | c :: l, p :: ps =>
    if foldLower c = foldLower p then (tokMatchAt l ps).map (c :: ·) else none

/-- The currency alternation `zł|PLN|EUR|€`, tried in pattern order. -/
def curTokenAt (l : List Char) : Option (List Char) :=
  (tokMatchAt l "zł".data).orElse fun _ =>
    (tokMatchAt l "PLN".data).orElse fun _ =>
      (tokMatchAt l "EUR".data).orElse fun _ =>
        tokMatchAt l "€".data

/-- `_PRICE_RE.search`: leftmost match, returning the `num` and `cur` groups. -/
def priceRegexSearch : List Char → Option (String × String)
  | [] => none
  | c :: rest =>
    if c.isDigit then
      let run := (c :: rest).takeWhile numClass
      match curTokenAt ((c :: rest).drop run.length) with
      | some cur => some (⟨run⟩, ⟨cur⟩)
      | none => priceRegexSearch rest
    else priceRegexSearch rest

/-- The currency normalization of the regex tier:
`"PLN" if cur_raw.lower() in {"zł", "pln"} else ("EUR" if cur_raw in
{"EUR", "€"} else None)` — note the second test is case-sensitive. -/
def regexCurrency (curRaw : String) : Option String :=
  let low : List Char := curRaw.data.map foldLower
  if low = "zł".data ∨ low = "pln".data then some "PLN"
  else if curRaw = "EUR" ∨ curRaw = "€" then some "EUR"
  else none

/-- Tier 4 (free-text regex fallback) and tier 5 (failure) of
`extract_price`. -/
def regexTier (d : Doc) (title : Option String) : Except Unit ParsedPrice :=
  match priceRegexSearch d.textContent.data with
  | some (rawNum, curRaw) =>
    match decimalToCents (cleanNumber rawNum) with
    | .error () => .error ()
    | .ok cents =>
      match cents with
      | some c =>
        if c > 0 then
          .ok ⟨some c, regexCurrency curRaw, title,
            some (rawNum ++ " " ++ curRaw), none, none⟩
        else
          .ok ⟨none, none, title, none, none, some "Price not found"⟩
      | none => .ok ⟨none, none, title, none, none, some "Price not found"⟩
  | none => .ok ⟨none, none, title, none, none, some "Price not found"⟩

/-- Tier 3 (`product:price:amount` meta tag) of `extract_price`, falling
through to the regex tier. -/
def metaTier (d : Doc) (title : Option String) : Except Unit ParsedPrice :=
  match d.metaAmountContent with
  | some amt =>
    if amt = "" then regexTier d title
    else
      match decimalToCents (cleanNumber amt) with
      | .error () => .error ()
      | .ok cents =>
        match cents with
        | some c =>
          if c > 0 then
            .ok ⟨some c, d.metaCurrencyContent, title, some amt, none, none⟩
          else regexTier d title
        | none => regexTier d title
  | none => regexTier d title

/-- `html.lower()`: ASCII lowering (the Unicode-only case mappings of
Python's `str.lower` cannot produce or destroy the ASCII scan tokens). -/
def lowerHtml (d : Doc) : String :=
  ⟨d.html.data.map Char.toLower⟩

/-- `parse.extract_price`.  `.error ()` is an exception escaping the
function (only the `Decimal` quantization and the malformed
`priceSpecification` access can raise). -/
def extractPrice (d : Doc) : Except Unit ParsedPrice :=
  let title := extractTitle d
  if pyContains (lowerHtml d) "robot check" ||
      (pyContains (lowerHtml d) "captcha" && pyContains (lowerHtml d) "amazon") then
    .ok ⟨none, none, title, none, none, some "Blocked by anti-bot / CAPTCHA"⟩
  else
    match jsonldScan (d.jsonld.map walk).flatten with
    | .error () => .error ()
    | .ok (some (c, cur, raw)) => .ok ⟨some c, jCurrency cur, title, raw, none, none⟩
    | .ok none => metaTier d title

/-! ## The observation store (`db.py`)

The SQLite database is embedded as a record of table contents.  Only the
columns the embedded operations read are modelled: of `products` just the
`id`s (observations reference them through the enforced foreign key).
`ORDER BY ts DESC` on `observations` is realized by SQLite as a descending
scan of the `(product_id, ts)` index, i.e. ties in `ts` come in descending
`rowid` order; the model sorts by that total order. -/

/-- One row of the `observations` table.  `in_stock` is stored as an
`INTEGER` (`1`/`0`/`NULL`), exactly as `add_observation` writes it. -/
structure Row where
  id : Nat
  product_id : Int
  ts : Int
  price_cents : Option Int
  currency : Option String
  in_stock : Option Int
  title : Option String
  raw_price_text : Option String
  error : Option String
  deriving DecidableEq, Repr

/-- Database state: product ids, observation rows, and the observation
`AUTOINCREMENT` counter. -/
structure DB where
  products : List Int
  rows : List Row
  nextId : Nat
  deriving DecidableEq, Repr

/-- `a` comes no later than `b` in an `ORDER BY ts DESC` index scan
(descending `rowid` on ties). -/
def tsDescLE (a b : Row) : Bool :=
  b.ts < a.ts || (a.ts == b.ts && b.id ≤ a.id)

/-- Insertion into a list sorted by `tsDescLE`. -/
def insertTsDesc (r : Row) : List Row → List Row
  | [] => [r]
  | x :: xs => if tsDescLE r x then r :: x :: xs else x :: insertTsDesc r xs

/-- Sort rows in `ORDER BY ts DESC` scan order. -/
def sortTsDesc (l : List Row) : List Row :=
  l.foldr insertTsDesc []

/-- The query
`SELECT … WHERE product_id = ? AND price_cents IS NOT NULL ORDER BY ts DESC
LIMIT ?`. -/
def recentPricedRows (rows : List Row) (product_id : Int) (limit : Nat) :
    List Row :=
  (sortTsDesc (rows.filter fun r =>
    r.product_id == product_id && r.price_cents.isSome)).take limit

/-- Ascending insertion sort on integers (Python `sorted`). -/
def insertAsc (n : Int) : List Int → List Int
  | [] => [n]
  | x :: xs => if n ≤ x then n :: x :: xs else x :: insertAsc n xs

/-- Exact rational division, written on numerators/denominators so that the
kernel can evaluate it (`Rat.div` is irreducible); `ratDiv_eq` identifies it
with `/`. -/
def ratDiv (a b : ℚ) : ℚ :=
  Rat.divInt (a.num * b.den) (a.den * b.num)

/-- Exact rational multiplication, kernel-evaluable; `ratMul_eq` identifies
it with `*`. -/
def ratMul (a b : ℚ) : ℚ :=
  Rat.divInt (a.num * b.num) (a.den * b.den)

/-- `Database._median`: `0.0` for an empty list, the middle element of the
sorted values for odd length, the average of the two middle elements for
even length.  Python `float` arithmetic on these integer inputs is exact and
is modelled by `ℚ`. -/
def median (values : List Int) : ℚ :=
  if values.isEmpty then 0
  else
    let vals := values.foldr insertAsc []
    let n := vals.length
    let mid := n / 2
    if n % 2 = 1 then ((vals.get? mid).getD 0 : Int)
    else Rat.divInt ((vals.get? (mid - 1)).getD 0 + (vals.get? mid).getD 0) 2

/-- `Database._is_outlier`: fetch up to `sample_limit` most recent priced
samples of the product; fewer than `min_samples` of them, or a non-positive
median, disables flagging; otherwise flag a candidate strictly below
`median / factor` or strictly above `median * factor`.  The `float` bounds
are modelled by exact rationals. -/
def isOutlier (db : DB) (product_id : Int) (price_cents : Int)
    (factor : ℚ := 6) (min_samples : Nat := 3) (sample_limit : Nat := 50) :
    Bool × Option ℚ :=
  let prices :=
    (recentPricedRows db.rows product_id sample_limit).filterMap (·.price_cents)
  if prices.length < min_samples then (false, none)
  else
    let m := median prices
    if m ≤ 0 then (false, none)
    else if (price_cents : ℚ) < ratDiv m factor ∨ ratMul m factor < (price_cents : ℚ) then
      (true, some m)
    else (false, some m)

/-- Round a rational to the nearest integer, ties to even, computed on the
numerator and denominator (`⌊q⌋ = q.num.fdiv q.den`, and the fractional part
compares to `1/2` as `2·(num − ⌊q⌋·den)` compares to `den`). -/
def roundHalfEvenRat (q : ℚ) : Int :=
  let f := q.num.fdiv q.den
  let r2 := 2 * (q.num - f * q.den)
  if r2 < q.den then f
  else if (q.den : Int) < r2 then f + 1
  else if f % 2 = 0 then f else f + 1

/-- Python's `f"{x:.2f}"` on the reference-median float: two-decimal
fixed-point rendering, rounding half-to-even (exact on the dyadic medians the
code can produce). -/
def formatFloat2 (q : ℚ) : String :=
  let n := roundHalfEvenRat (ratMul q 100)
  let sign := if n < 0 then "-" else ""
  let a := n.natAbs
  let frac := a % 100
  sign ++ toString (a / 100) ++ "." ++
    (if frac < 10 then "0" ++ toString frac else toString frac)

/-- Python truthiness of an optional string (`None` and `""` are falsy). -/
def pyFalsyStr (e : Option String) : Bool :=
  e.getD "" == ""

/-- The outlier error message
`f"Discarded outlier vs median {ref_median / 100:.2f}" if ref_median else
"Discarded outlier"` (a `None` or `0.0` reference median is falsy). -/
def outlierMsg (refMedian : Option ℚ) : String :=
  match refMedian with
  | some m =>
    if m = 0 then "Discarded outlier"
    else "Discarded outlier vs median " ++ formatFloat2 (ratDiv m 100)
  | none => "Discarded outlier"

/-- The `price_to_store` / `err_to_store` computation of
`Database.add_observation`: discard non-positive prices (synthesizing an
error message when the caller's `error` is falsy), else consult the outlier
guard and discard flagged prices likewise. -/
def storePair (db : DB) (product_id : Int) :
    Option Int → Option String → Option Int × Option String
  | none, error => (none, error)
  | some p, error =>
    if p ≤ 0 then
      (none, if pyFalsyStr error then some "Discarded non-positive price"
        else error)
    else if (isOutlier db product_id p).1 then
      (none, if pyFalsyStr error then
        some (outlierMsg (isOutlier db product_id p).2) else error)
    else (some p, error)

/-- The row `Database.add_observation` inserts. -/
def storedRow (db : DB) (product_id ts : Int) (price_cents : Option Int)
    (currency : Option String) (in_stock : Option Bool)
    (title raw_price_text error : Option String) : Row :=
  { id := db.nextId, product_id := product_id, ts := ts,
    price_cents := (storePair db product_id price_cents error).1,
    currency := currency,
    in_stock := in_stock.map fun b => if b then 1 else 0, title := title,
    raw_price_text := raw_price_text,
    error := (storePair db product_id price_cents error).2 }

/-- `Database.add_observation`.  `ts=None` defaults to the wall clock; the
model takes the resulting timestamp as an argument.  Inserting for an
unknown product violates the enforced foreign key (`sqlite3.IntegrityError`),
embedded as `.error ()`.  Returns the new state and the assigned row id. -/
def addObservation (db : DB) (product_id : Int) (ts : Int)
    (price_cents : Option Int) (currency : Option String)
    (in_stock : Option Bool) (title : Option String)
    (raw_price_text : Option String) (error : Option String) :
    Except Unit (DB × Nat) :=
  if ¬ db.products.contains product_id then .error ()
  else
    .ok ({ db with
      rows := db.rows ++
        [storedRow db product_id ts price_cents currency in_stock title
          raw_price_text error],
      nextId := db.nextId + 1 }, db.nextId)

/-- `db.Observation`, as materialized by the read queries
(`in_stock` becomes `bool(int(_))`). -/
structure Observation where
  id : Nat
  product_id : Int
  ts : Int
  price_cents : Option Int
  currency : Option String
  in_stock : Option Bool
  title : Option String
  raw_price_text : Option String
  error : Option String
  deriving DecidableEq, Repr

/-- Row-to-dataclass conversion shared by the read queries. -/
def rowToObservation (r : Row) : Observation :=
  { id := r.id, product_id := r.product_id, ts := r.ts,
    price_cents := r.price_cents, currency := r.currency,
    in_stock := r.in_stock.map (· ≠ 0), title := r.title,
    raw_price_text := r.raw_price_text, error := r.error }

/-- `Database.get_history`: the `limit` most recent observations of the
product, descending by `ts`. -/
def getHistory (db : DB) (product_id : Int) (limit : Nat := 200) :
    List Observation :=
  ((sortTsDesc (db.rows.filter fun r => r.product_id == product_id)).take
    limit).map rowToObservation

/-- Is this a stored non-positive price (the rows the first `DELETE` of
`clean_price_outliers` drops)? -/
def nonPosRow (r : Row) : Bool :=
  match r.price_cents with
  | some p => p ≤ 0
  | none => false

/-- One iteration of the per-product loop of `clean_price_outliers`:
fetch the up to `sample_limit` most recent priced rows of the product, and
when at least `min_samples` of them exist with a positive median, delete
(by id) those fetched rows lying outside `[median / factor, median * factor]`
and add their number to the running count. -/
def cleanStep (factor : ℚ) (min_samples sample_limit : Nat)
    (acc : List Row × Nat) (pid : Int) : List Row × Nat :=
  let rowsQ := recentPricedRows acc.1 pid sample_limit
  let prices := rowsQ.filterMap (·.price_cents)
  if prices.length < min_samples then acc
  else
    let m := median prices
    if m ≤ 0 then acc
    else
      let badIds := (rowsQ.filter fun r =>
        (r.price_cents.getD 0 : ℚ) < ratDiv m factor ∨
          ratMul m factor < (r.price_cents.getD 0 : ℚ)).map (·.id)
      (acc.1.filter (fun r => !badIds.contains r.id),
        acc.2 + badIds.length)

/-- `Database.clean_price_outliers`: first delete every stored row with a
non-positive non-null price, then run `cleanStep` over every product id.
Returns the new state and the reported number of deleted rows. -/
def cleanPriceOutliers (db : DB) (factor : ℚ := 6) (min_samples : Nat := 3)
    (sample_limit : Nat := 200) : DB × Nat :=
  let keep1 := db.rows.filter fun r => !nonPosRow r
  let removed1 := db.rows.countP fun r => nonPosRow r
  let final :=
    db.products.foldl (cleanStep factor min_samples sample_limit)
      (keep1, removed1)
  ({ db with rows := final.1 }, final.2)

/-- `Database.init` (db.py:78-97), restricted to the stored rows this model
tracks: the `user_version` dispatch only creates tables or alters the schema
(no `products` or `observations` row is inserted, updated or deleted by
`_create_v3`, `_migrate_1_to_2` or `_migrate_2_to_3`), and the method ends by
calling `self.clean_price_outliers()` with its default parameters, so its
effect on the stored rows is exactly that cleanup. -/
def dbInit (db : DB) : DB :=
  (cleanPriceOutliers db).1

/-- The numeric value of a finite parsed `Decimal`: `±coeff · 10^exp`. -/
def decValue (neg : Bool) (c : Nat) (e : Int) : ℚ :=
  (if neg then -(c : ℚ) else (c : ℚ)) * (10 : ℚ) ^ e

/-- The magnitude `_decimal_to_cents` computes for a finite value whose
coefficient scaling needs no precision rounding: the integral part of
`coeff·100·10^exp`, rounded half-even at the decimal point. -/
def centsMagnitude (c : Nat) (e : Int) : Nat :=
  if 0 ≤ e then c * 100 * 10 ^ e.toNat
  else roundHalfEvenNatDiv (c * 100) (10 ^ (-e).toNat)

/-- The store invariant: every persisted price is strictly positive. -/
def dbInv (db : DB) : Prop :=
  ∀ r ∈ db.rows, ∀ q : Int, r.price_cents = some q → 0 < q

/-- A historical extreme-outlier row older than the cleanup's scan window. -/
def oldOutlierRow : Row := ⟨0, 1, 1, some 1000000000, none, none, none, none, none⟩

/-- A store with 201 priced rows: 200 recent rows at price 1000 and one old
row priced 10^9 that lies outside the cleanup's 200-row scan window. -/
def dbBig : DB :=
  { products := [1],
    rows := oldOutlierRow ::
      (List.range 200).map (fun i =>
        ⟨i + 1, 1, (i : Int) + 2, some 1000, none, none, none, none, none⟩),
    nextId := 201 }

/-! ## Concrete fixtures used by witness theorems -/

/-- A store with one product and three priced observations
(3000, 3100, 3050). -/
def dbGuard : DB :=
  { products := [1],
    rows := [⟨0, 1, 10, some 3000, none, none, none, none, none⟩,
      ⟨1, 1, 11, some 3100, none, none, none, none, none⟩,
      ⟨2, 1, 12, some 3050, none, none, none, none, none⟩],
    nextId := 3 }

/-- A store with one product and no observations yet. -/
def dbEmptyHist : DB :=
  { products := [1], rows := [], nextId := 0 }

/-- `dbGuard` after inserting an outlier price with caller error `"ext"`. -/
def dbGuardOutlier : DB :=
  { products := [1],
    rows := [⟨0, 1, 10, some 3000, none, none, none, none, none⟩,
      ⟨1, 1, 11, some 3100, none, none, none, none, none⟩,
      ⟨2, 1, 12, some 3050, none, none, none, none, none⟩,
      ⟨3, 1, 20, none, none, none, none, none, some "ext"⟩],
    nextId := 4 }

/-- `dbGuard` after inserting an accepted (in-band) observation. -/
def dbGuardAccepted : DB :=
  { products := [1],
    rows := [⟨0, 1, 10, some 3000, none, none, none, none, none⟩,
      ⟨1, 1, 11, some 3100, none, none, none, none, none⟩,
      ⟨2, 1, 12, some 3050, none, none, none, none, none⟩,
      ⟨3, 1, 20, some 3055, some "PLN", some 1, some "T", some "30,55 zł", none⟩],
    nextId := 4 }

/-- `dbGuard` plus an in-window extreme outlier (id 3, price 10^6): the
window holds all four priced rows, their median is 3075, and
`3075 · 6 < 10^6`, so the cleanup must delete row 3. -/
def dbGuardDirty : DB :=
  { products := [1],
    rows := [⟨0, 1, 10, some 3000, none, none, none, none, none⟩,
      ⟨1, 1, 11, some 3100, none, none, none, none, none⟩,
      ⟨2, 1, 12, some 3050, none, none, none, none, none⟩,
      ⟨3, 1, 13, some 1000000, none, none, none, none, none⟩],
    nextId := 4 }

/-- A document with no price signal at all. -/
def docPlain : Doc :=
  { html := "<html><body>hello</body></html>", ogTitleContent := none,
    titleText := none, h1Text := none, jsonld := [],
    metaAmountContent := none, metaCurrencyContent := none,
    textContent := "hello" }

/-- A document whose price comes from the `product:price:amount` meta tag. -/
def docMeta : Doc :=
  { html := "<html></html>", ogTitleContent := some "Karta graficzna XYZ",
    titleText := none, h1Text := none, jsonld := [],
    metaAmountContent := some "1 299,99", metaCurrencyContent := some "PLN",
    textContent := "" }

/-- The normalization policy as the spec words it (for comparison with
`cleanNumber`): after stripping regular and no-break spaces, when both
separators occur, whichever occurs last is the decimal point — it becomes
`.` — and the other is a thousands separator and is dropped; a lone `,`
becomes the decimal point.  Written as one filter-and-map instead of the
code's sequential `replace` calls. -/
def specSeparatorNormalize (s : String) : String :=
  let t : List Char :=
    (s.data.map fun c => if c = ' ' then ' ' else c).filter (· ≠ ' ')
  if t.contains ',' ∧ t.contains '.' then
    let dec : Char := if pyRfind t ',' > pyRfind t '.' then ',' else '.'
    let other : Char := if pyRfind t ',' > pyRfind t '.' then '.' else ','
    ⟨(t.filter (· ≠ other)).map fun c => if c = dec then '.' else c⟩
  else if t.contains ',' then ⟨t.map fun c => if c = ',' then '.' else c⟩
  else ⟨t⟩

end ElPriceChecker

namespace ElPriceChecker

/-! ## Theorems -/

theorem ratMul_eq (a b : ℚ) : ratMul a b = a * b := by
  rw [ratMul, Rat.divInt_eq_div]
  push_cast
  rw [← div_mul_div_comm, Rat.num_div_den, Rat.num_div_den]

theorem ratDiv_eq (a b : ℚ) : ratDiv a b = a / b := by
  rcases eq_or_ne b 0 with rb | rb
  · subst rb
    simp [ratDiv]
  · rw [ratDiv, Rat.divInt_eq_div]
    have had : ((a.den : ℚ)) ≠ 0 := by exact_mod_cast a.den_nz
    have hbd : ((b.den : ℚ)) ≠ 0 := by exact_mod_cast b.den_nz
    have hbn : ((b.num : ℚ)) ≠ 0 := by exact_mod_cast Rat.num_ne_zero.mpr rb
    conv_rhs => rw [← Rat.num_div_den a, ← Rat.num_div_den b]
    push_cast
    field_simp

theorem regexTier_ok_shape (d : Doc) (t : Option String) (r : ParsedPrice)
    (h : regexTier d t = .ok r) :
    r.title = t ∧ r.in_stock = none ∧
      ((r.price_cents ≠ none ∧ r.error = none) ∨
        (r.price_cents = none ∧ r.error = some "Price not found")) := by
  unfold regexTier at h
  repeat' split at h
  all_goals (cases h <;> simp)

theorem metaTier_ok_shape (d : Doc) (t : Option String) (r : ParsedPrice)
    (h : metaTier d t = .ok r) :
    r.title = t ∧ r.in_stock = none ∧
      ((r.price_cents ≠ none ∧ r.error = none) ∨
        (r.price_cents = none ∧ r.error = some "Price not found")) := by
  unfold metaTier at h
  repeat' split at h
  all_goals first
    | exact regexTier_ok_shape d t r h
    | (cases h <;> simp)

theorem extractPrice_ok_shape (d : Doc) (r : ParsedPrice)
    (h : extractPrice d = .ok r) :
    r.title = extractTitle d ∧ r.in_stock = none ∧
      ((r.price_cents ≠ none ∧ r.error = none) ∨
        (r.price_cents = none ∧ r.error = some "Price not found") ∨
        (r.price_cents = none ∧ r.error = some "Blocked by anti-bot / CAPTCHA")) := by
  unfold extractPrice at h
  repeat' split at h
  all_goals first
    | (have hmt := metaTier_ok_shape d (extractTitle d) r h; tauto)
    | (cases h <;> simp)

/-- **C3.**  `extract_price` short-circuits with
`error = "Blocked by anti-bot / CAPTCHA"` (price `None`, title still
attempted) exactly when the lowercased document contains `"robot check"`, or
contains `"captcha"` together with the Amazon marker `"amazon"` — the token
`"captcha"` alone never blocks. -/
theorem extractPrice_antibot_iff (d : Doc) :
    extractPrice d = .ok ⟨none, none, extractTitle d, none, none,
        some "Blocked by anti-bot / CAPTCHA"⟩ ↔
      (pyContains (lowerHtml d) "robot check" = true ∨
        (pyContains (lowerHtml d) "captcha" = true ∧
          pyContains (lowerHtml d) "amazon" = true)) := by
  constructor
  · intro h
    cases hcond : (pyContains (lowerHtml d) "robot check" ||
        (pyContains (lowerHtml d) "captcha" && pyContains (lowerHtml d) "amazon")) with
    | true =>
      simpa [Bool.or_eq_true, Bool.and_eq_true] using hcond
    | false =>
      exfalso
      unfold extractPrice at h
      rw [hcond] at h
      simp only [Bool.false_eq_true, if_false] at h
      repeat' split at h
      · simp at h
      · simp at h
      · have := metaTier_ok_shape d (extractTitle d) _ h
        simp at this
  · intro h
    have hcond : (pyContains (lowerHtml d) "robot check" ||
        (pyContains (lowerHtml d) "captcha" && pyContains (lowerHtml d) "amazon")) = true := by
      rcases h with hx | ⟨h1, h2⟩
      · simp [hx]
      · simp [h1, h2]
    unfold extractPrice
    rw [hcond]
    simp

/-- **C4.**  On every return (non-raising) path of `extract_price`, exactly
one of `price_cents ≠ None` and `error ≠ None` holds. -/
theorem extractPrice_price_xor_error (d : Doc) (r : ParsedPrice)
    (h : extractPrice d = .ok r) :
    (r.price_cents ≠ none ∧ r.error = none) ∨
      (r.price_cents = none ∧ r.error ≠ none) := by
  rcases extractPrice_ok_shape d r h with ⟨-, -, h3 | h3 | h3⟩
  · exact Or.inl h3
  · exact Or.inr ⟨h3.1, by simp [h3.2]⟩
  · exact Or.inr ⟨h3.1, by simp [h3.2]⟩

/-- Witness for C4 at a concrete price-less document. -/
theorem extractPrice_price_xor_error_witness :
    extractPrice docPlain =
        .ok ⟨none, none, none, none, none, some "Price not found"⟩ ∧
      (((⟨none, none, none, none, none, some "Price not found"⟩ :
            ParsedPrice).price_cents ≠ none ∧
          (⟨none, none, none, none, none, some "Price not found"⟩ :
            ParsedPrice).error = none) ∨
        ((⟨none, none, none, none, none, some "Price not found"⟩ :
            ParsedPrice).price_cents = none ∧
          (⟨none, none, none, none, none, some "Price not found"⟩ :
            ParsedPrice).error ≠ none)) :=
  ⟨by decide, extractPrice_price_xor_error docPlain _ (by decide)⟩

theorem insertAsc_eq_orderedInsert (n : Int) (l : List Int) :
    insertAsc n l = List.orderedInsert (· ≤ ·) n l := by
  induction l with
  | nil => rfl
  | cons x xs ih => simp [insertAsc, List.orderedInsert, ih]

theorem foldr_insertAsc_eq_insertionSort (l : List Int) :
    l.foldr insertAsc [] = l.insertionSort (· ≤ ·) := by
  induction l with
  | nil => rfl
  | cons x xs ih => simp [List.insertionSort, insertAsc_eq_orderedInsert, ih]

theorem foldr_insertAsc_perm (l : List Int) : (l.foldr insertAsc []).Perm l := by
  rw [foldr_insertAsc_eq_insertionSort]
  exact List.perm_insertionSort _ l

theorem foldr_insertAsc_sorted (l : List Int) :
    (l.foldr insertAsc []).Sorted (· ≤ ·) := by
  rw [foldr_insertAsc_eq_insertionSort]
  exact List.sorted_insertionSort _ l

/-- **C1.**  The outlier guard never flags with fewer than 3 recent priced
samples; with at least 3 it takes the median of the up to 50 most recent
priced samples (the middle of the sorted values, averaging the two middle
elements for even counts) and flags exactly the candidates outside the
closed interval `[median / 6, median * 6]`; a median `≤ 0` disables
flagging. -/
theorem isOutlier_classification (db : DB) (pid : Int) (c : Int) :
    (((recentPricedRows db.rows pid 50).filterMap (·.price_cents)).length < 3 →
      isOutlier db pid c = (false, none)) ∧
    (3 ≤ ((recentPricedRows db.rows pid 50).filterMap (·.price_cents)).length →
      (∃ vals : List Int,
        vals.Perm ((recentPricedRows db.rows pid 50).filterMap (·.price_cents)) ∧
          vals.Sorted (· ≤ ·) ∧
          median ((recentPricedRows db.rows pid 50).filterMap (·.price_cents)) =
            (if vals.length % 2 = 1 then ((vals.get? (vals.length / 2)).getD 0 : ℚ)
              else (((vals.get? (vals.length / 2 - 1)).getD 0 : ℚ) +
                ((vals.get? (vals.length / 2)).getD 0 : ℚ)) / 2)) ∧
        (0 < median ((recentPricedRows db.rows pid 50).filterMap (·.price_cents)) →
          ((isOutlier db pid c).1 = true ↔
            ¬ (median ((recentPricedRows db.rows pid 50).filterMap (·.price_cents)) / 6 ≤ (c : ℚ) ∧
              (c : ℚ) ≤ median ((recentPricedRows db.rows pid 50).filterMap (·.price_cents)) * 6))) ∧
        (median ((recentPricedRows db.rows pid 50).filterMap (·.price_cents)) ≤ 0 →
          isOutlier db pid c = (false, none))) := by
  set P := (recentPricedRows db.rows pid 50).filterMap (·.price_cents) with hP
  constructor
  · intro hlen
    unfold isOutlier
    rw [← hP, if_pos hlen]
  · intro hlen
    have hnlt : ¬ P.length < 3 := by omega
    refine ⟨⟨P.foldr insertAsc [], foldr_insertAsc_perm P, foldr_insertAsc_sorted P, ?_⟩, ?_, ?_⟩
    · unfold median
      have hne : P ≠ [] := by
        intro h
        rw [h] at hlen
        simp at hlen
      rw [if_neg (by simpa [List.isEmpty_iff] using hne)]
      dsimp only
      split_ifs with hodd
      · simp
      · rw [Rat.divInt_eq_div]
        push_cast
        rfl
    · intro hm
      unfold isOutlier
      rw [← hP, if_neg hnlt]
      dsimp only
      rw [if_neg (by exact not_le.mpr hm)]
      rw [not_and_or, not_le, not_le, ratDiv_eq, ratMul_eq]
      split_ifs with hcond
      · simp only [true_iff]
        rcases hcond with h | h
        · exact Or.inl h
        · exact Or.inr h
      · simp only [false_iff]
        push_neg at hcond ⊢
        constructor
        · exact hcond.1
        · exact hcond.2
    · intro hm
      unfold isOutlier
      rw [← hP, if_neg hnlt]
      dsimp only
      rw [if_pos hm]

/-- Witness for C1: three samples (median 3050), candidate 300000. -/
theorem isOutlier_classification_witness :
    3 ≤ ((recentPricedRows dbGuard.rows 1 50).filterMap (·.price_cents)).length ∧
      0 < median ((recentPricedRows dbGuard.rows 1 50).filterMap (·.price_cents)) ∧
      ((isOutlier dbGuard 1 300000).1 = true ↔
        ¬ (median ((recentPricedRows dbGuard.rows 1 50).filterMap (·.price_cents)) / 6 ≤
            ((300000 : Int) : ℚ) ∧
          ((300000 : Int) : ℚ) ≤
            median ((recentPricedRows dbGuard.rows 1 50).filterMap (·.price_cents)) * 6)) :=
  ⟨by decide, by decide,
    ((isOutlier_classification dbGuard 1 300000).2 (by decide)).2.1 (by decide)⟩

/-- **C5.**  The number normalizer strips regular and no-break spaces and
then treats whichever of `.` and `,` occurs last as the decimal point,
stripping the other as a thousands separator; a lone `,` becomes the decimal
point (`specSeparatorNormalize` words this policy as a single filter-and-map);
in particular `normalize("5 999,00") = "5999.00"` and
`normalize("5,999.00") = "5999.00"`. -/
theorem cleanNumber_separator_policy :
    (∀ s : String, cleanNumber s = specSeparatorNormalize s) ∧
      cleanNumber "5 999,00" = "5999.00" ∧ cleanNumber "5,999.00" = "5999.00" := by
  refine ⟨fun s => ?_, by decide, by decide⟩
  unfold cleanNumber specSeparatorNormalize
  dsimp only
  split_ifs
  all_goals first
    | rfl
    | (congr 1
       have hid : ∀ c : Char, (if c = '.' then '.' else c) = c := by
         intro c
         split
         · simp_all
         · rfl
       rw [show (fun c : Char => if c = '.' then '.' else c) = id from funext hid,
         List.map_id])

/-- **C10.**  No tier of `extract_price` ever sets `in_stock`: every
returned result has `in_stock = None`. -/
theorem extractPrice_in_stock_none (d : Doc) (r : ParsedPrice)
    (h : extractPrice d = .ok r) : r.in_stock = none :=
  (extractPrice_ok_shape d r h).2.1

/-- Witness for C10 at a concrete meta-tag-priced document. -/
theorem extractPrice_in_stock_none_witness :
    extractPrice docMeta =
        .ok ⟨some 129999, some "PLN", some "Karta graficzna XYZ",
          some "1 299,99", none, none⟩ ∧
      (⟨some 129999, some "PLN", some "Karta graficzna XYZ",
          some "1 299,99", none, none⟩ : ParsedPrice).in_stock = none :=
  ⟨by decide, extractPrice_in_stock_none docMeta _ (by decide)⟩

theorem addObservation_ok (db : DB) (pid ts : Int) (pc : Option Int)
    (cur : Option String) (stk : Option Bool) (ttl raw err : Option String)
    (db' : DB) (rid : Nat)
    (h : addObservation db pid ts pc cur stk ttl raw err = .ok (db', rid)) :
    db.products.contains pid = true ∧ rid = db.nextId ∧
      db' = { db with
        rows := db.rows ++ [storedRow db pid ts pc cur stk ttl raw err],
        nextId := db.nextId + 1 } := by
  unfold addObservation at h
  split_ifs at h with hv
  simp only [Except.ok.injEq, Prod.mk.injEq] at h
  exact ⟨by simpa using hv, h.2.symm, h.1.symm⟩

theorem storePair_fst_cases (db : DB) (pid : Int) (pc : Option Int)
    (err : Option String) (q : Int)
    (h : (storePair db pid pc err).1 = some q) : 0 < q ∧ pc = some q := by
  rcases pc with - | p
  · simp [storePair] at h
  · simp only [storePair] at h
    by_cases hp : p ≤ 0
    · rw [if_pos hp] at h
      simp at h
    · rw [if_neg hp] at h
      by_cases hflag : (isOutlier db pid p).1 = true
      · rw [if_pos hflag] at h
        simp at h
      · rw [if_neg hflag] at h
        simp at h
        subst h
        exact ⟨by omega, rfl⟩

theorem storePair_nonpositive (db : DB) (pid : Int) (p : Int)
    (err : Option String) (hp : p ≤ 0) :
    storePair db pid (some p) err =
      (none, if pyFalsyStr err then some "Discarded non-positive price"
        else err) := by
  simp only [storePair]
  rw [if_pos hp]

theorem storePair_keeps_truthy_error (db : DB) (pid : Int) (pc : Option Int)
    (e : String) (he : e ≠ "") :
    (storePair db pid pc (some e)).2 = some e := by
  have hfal : pyFalsyStr (some e) = false := by
    simp [pyFalsyStr]
    intro h
    exact he h
  rcases pc with - | p
  · simp [storePair]
  · simp only [storePair]
    split_ifs with h1 h2
    all_goals simp_all

theorem storePair_accepted (db : DB) (pid : Int) (pc : Option Int)
    (err : Option String)
    (hacc : pc = none ∨ ∃ p, pc = some p ∧ 0 < p ∧ (isOutlier db pid p).1 = false) :
    storePair db pid pc err = (pc, err) := by
  rcases hacc with h | ⟨p, hpc, hpos, hflag⟩
  · subst h
    simp [storePair]
  · subst hpc
    simp only [storePair]
    rw [if_neg (by omega), if_neg (by simp [hflag])]

theorem cleanStep_rows_subset (f : ℚ) (ms sl : Nat) (acc : List Row × Nat)
    (pid : Int) (r : Row) (h : r ∈ (cleanStep f ms sl acc pid).1) : r ∈ acc.1 := by
  unfold cleanStep at h
  dsimp only at h
  split_ifs at h
  · exact h
  · exact h
  · exact (List.mem_filter.mp h).1

theorem foldl_cleanStep_mem (f : ℚ) (ms sl : Nat) (ps : List Int)
    (acc : List Row × Nat) (r : Row)
    (h : r ∈ (ps.foldl (cleanStep f ms sl) acc).1) : r ∈ acc.1 := by
  induction ps generalizing acc with
  | nil => exact h
  | cons p ps ih => exact cleanStep_rows_subset f ms sl acc p r (ih _ h)

theorem cleanPriceOutliers_row_mem (db : DB) (f : ℚ) (ms sl : Nat) (r : Row)
    (h : r ∈ (cleanPriceOutliers db f ms sl).1.rows) :
    r ∈ db.rows ∧ nonPosRow r = false := by
  unfold cleanPriceOutliers at h
  dsimp only at h
  have := foldl_cleanStep_mem f ms sl db.products _ r h
  have h2 := List.mem_filter.mp this
  exact ⟨h2.1, by simpa using h2.2⟩

theorem insertTsDesc_perm (r : Row) (l : List Row) :
    (insertTsDesc r l).Perm (r :: l) := by
  induction l with
  | nil => exact List.Perm.refl _
  | cons x xs ih =>
    unfold insertTsDesc
    split_ifs
    · exact List.Perm.refl _
    · exact (List.Perm.cons x ih).trans (List.Perm.swap r x xs)

theorem sortTsDesc_perm (l : List Row) : (sortTsDesc l).Perm l := by
  induction l with
  | nil => exact List.Perm.refl _
  | cons x xs ih =>
    have : sortTsDesc (x :: xs) = insertTsDesc x (sortTsDesc xs) := rfl
    rw [this]
    exact (insertTsDesc_perm x (sortTsDesc xs)).trans (List.Perm.cons x ih)

/-- **C2.**  A non-positive price argument is never persisted: the inserted
row has a null price and a non-null error (the synthetic
`"Discarded non-positive price"` when the caller supplied none); the store
invariant — every persisted price is strictly positive — is preserved by
`add_observation` and (unconditionally established) by
`clean_price_outliers`. -/
theorem addObservation_nonpositive_policy :
    (∀ (db : DB) (pid ts p : Int) (cur : Option String) (stk : Option Bool)
        (ttl raw err : Option String) (db' : DB) (rid : Nat),
      addObservation db pid ts (some p) cur stk ttl raw err = .ok (db', rid) →
      p ≤ 0 →
      ∃ r : Row, db'.rows = db.rows ++ [r] ∧ r.price_cents = none ∧
        r.error ≠ none ∧ (err = none → r.error = some "Discarded non-positive price")) ∧
    (∀ (db : DB) (pid ts : Int) (pc : Option Int) (cur : Option String)
        (stk : Option Bool) (ttl raw err : Option String) (db' : DB) (rid : Nat),
      addObservation db pid ts pc cur stk ttl raw err = .ok (db', rid) →
      dbInv db → dbInv db') ∧
    (∀ (db : DB) (f : ℚ) (ms sl : Nat), dbInv (cleanPriceOutliers db f ms sl).1) := by
  refine ⟨?_, ?_, ?_⟩
  · intro db pid ts p cur stk ttl raw err db' rid h hp
    obtain ⟨-, -, hdb⟩ := addObservation_ok db pid ts (some p) cur stk ttl raw err db' rid h
    subst hdb
    refine ⟨storedRow db pid ts (some p) cur stk ttl raw err, rfl, ?_, ?_, ?_⟩
    · show (storePair db pid (some p) err).1 = none
      rw [storePair_nonpositive db pid p err hp]
    · show (storePair db pid (some p) err).2 ≠ none
      rw [storePair_nonpositive db pid p err hp]
      dsimp only
      split_ifs with hfal
      · simp
      · intro hc
        rw [hc] at hfal
        simp [pyFalsyStr] at hfal
    · intro he
      subst he
      show (storePair db pid (some p) none).2 = some "Discarded non-positive price"
      rw [storePair_nonpositive db pid p none hp]
      simp [pyFalsyStr]
  · intro db pid ts pc cur stk ttl raw err db' rid h hinv
    obtain ⟨-, -, hdb⟩ := addObservation_ok db pid ts pc cur stk ttl raw err db' rid h
    subst hdb
    intro r hr q hq
    simp only [List.mem_append, List.mem_singleton] at hr
    rcases hr with hr | hr
    · exact hinv r hr q hq
    · subst hr
      exact (storePair_fst_cases db pid pc err q hq).1
  · intro db f ms sl r hr q hq
    have := (cleanPriceOutliers_row_mem db f ms sl r hr).2
    unfold nonPosRow at this
    rw [hq] at this
    simp at this
    omega

/-- Witness for C2: storing `price_cents = -500` nulls the price and
synthesizes the non-positive error. -/
theorem addObservation_nonpositive_policy_witness :
    (addObservation dbEmptyHist 1 20 (some (-500)) (some "PLN") none none none none =
      .ok (⟨[1], [⟨0, 1, 20, none, some "PLN", none, none, none,
        some "Discarded non-positive price"⟩], 1⟩, 0)) ∧
    ((-500 : Int) ≤ 0) ∧
    (∃ r : Row,
      (⟨[1], [⟨0, 1, 20, none, some "PLN", none, none, none,
        some "Discarded non-positive price"⟩], 1⟩ : DB).rows =
        dbEmptyHist.rows ++ [r] ∧ r.price_cents = none ∧ r.error ≠ none ∧
        ((none : Option String) = none →
          r.error = some "Discarded non-positive price")) :=
  ⟨by decide, by decide,
    addObservation_nonpositive_policy.1 dbEmptyHist 1 20 (-500) (some "PLN")
      none none none none _ 0 (by decide) (by decide)⟩

/-- **C7 counterexample.**  The claim fails as stated: a caller-supplied
non-null but *empty* error string `""` is falsy in Python, so the store
replaces it with the synthesized non-positive message instead of persisting
it. -/
theorem addObservation_replaces_empty_error :
    (addObservation dbEmptyHist 1 5 (some (-500)) none none none none (some "")).map
        (fun x => x.1.rows.map Row.error) =
      .ok [some "Discarded non-positive price"] ∧
    (some "Discarded non-positive price" : Option String) ≠ some "" := by
  decide

/-- **C7 (amended).**  A caller-supplied non-null, non-empty (truthy) error
is persisted verbatim: the rejection steps synthesize a message only when
the caller's error is `None` or `""`, and never overwrite a truthy one. -/
theorem addObservation_keeps_nonempty_error (db : DB) (pid ts : Int)
    (pc : Option Int) (cur : Option String) (stk : Option Bool)
    (ttl raw : Option String) (e : String) (db' : DB) (rid : Nat)
    (h : addObservation db pid ts pc cur stk ttl raw (some e) = .ok (db', rid))
    (he : e ≠ "") :
    ∃ r : Row, db'.rows = db.rows ++ [r] ∧ r.error = some e := by
  obtain ⟨-, -, hdb⟩ := addObservation_ok db pid ts pc cur stk ttl raw (some e) db' rid h
  subst hdb
  exact ⟨storedRow db pid ts pc cur stk ttl raw (some e), rfl,
    storePair_keeps_truthy_error db pid pc e he⟩

/-- Witness for the amended C7: an outlier insert with caller error
`"ext"` keeps that error. -/
theorem addObservation_keeps_nonempty_error_witness :
    (addObservation dbGuard 1 20 (some 300000) none none none none (some "ext") =
      .ok (dbGuardOutlier, 3)) ∧ ("ext" : String) ≠ "" ∧
    (∃ r : Row, dbGuardOutlier.rows = dbGuard.rows ++ [r] ∧ r.error = some "ext") :=
  ⟨by decide, by decide,
    addObservation_keeps_nonempty_error dbGuard 1 20 (some 300000) none none
      none none "ext" dbGuardOutlier 3 (by decide) (by decide)⟩

/-- **C9 counterexample.**  The round-trip claim fails as stated: writing
`price_cents = -500` and reading the history back yields `price_cents =
None`, not the written `-500` — the store normalizes rejected prices before
persisting. -/
theorem roundtrip_fails_on_rejected_price :
    (addObservation dbEmptyHist 1 100 (some (-500)) (some "PLN") none none none none).map
        (fun x => (getHistory x.1 1 200).map Observation.price_cents) =
      .ok [none] ∧ (none : Option Int) ≠ some (-500) := by
  decide

/-- **C9 (amended).**  For writes the store accepts verbatim — null price,
or positive and not classified an outlier at insert time — reading the
history back (within the query limit) returns an observation whose `ts`,
`price_cents`, `currency`, `in_stock`, `title`, `raw_price_text` and `error`
equal the written arguments exactly, with the server-assigned id. -/
theorem addObservation_roundtrip_accepted (db : DB) (pid ts : Int)
    (pc : Option Int) (cur : Option String) (stk : Option Bool)
    (ttl raw err : Option String) (db' : DB) (rid : Nat)
    (h : addObservation db pid ts pc cur stk ttl raw err = .ok (db', rid))
    (hacc : pc = none ∨ ∃ p, pc = some p ∧ 0 < p ∧ (isOutlier db pid p).1 = false)
    (hroom : (db.rows.filter fun r => r.product_id == pid).length < 200) :
    (⟨rid, pid, ts, pc, cur, stk, ttl, raw, err⟩ : Observation) ∈
      getHistory db' pid 200 := by
  obtain ⟨-, hrid, hdb⟩ := addObservation_ok db pid ts pc cur stk ttl raw err db' rid h
  subst hdb
  subst hrid
  unfold getHistory
  dsimp only
  set row := storedRow db pid ts pc cur stk ttl raw err with hrow
  have hfilter : ((db.rows ++ [row]).filter fun r => r.product_id == pid) =
      (db.rows.filter fun r => r.product_id == pid) ++ [row] := by
    rw [List.filter_append]
    simp [hrow, storedRow]
  rw [hfilter]
  have hperm := sortTsDesc_perm ((db.rows.filter fun r => r.product_id == pid) ++ [row])
  have hlen : (sortTsDesc ((db.rows.filter fun r => r.product_id == pid) ++ [row])).length ≤ 200 := by
    rw [hperm.length_eq]
    simp only [List.length_append, List.length_cons, List.length_nil]
    omega
  rw [List.take_of_length_le hlen]
  have hmem : row ∈ sortTsDesc ((db.rows.filter fun r => r.product_id == pid) ++ [row]) := by
    rw [hperm.mem_iff]
    exact List.mem_append_right _ (List.mem_singleton_self row)
  have hobs : rowToObservation row = ⟨db.nextId, pid, ts, pc, cur, stk, ttl, raw, err⟩ := by
    rw [hrow]
    unfold rowToObservation storedRow
    rw [storePair_accepted db pid pc err hacc]
    dsimp only
    congr 1
    rcases stk with - | b
    · rfl
    · cases b <;> rfl
  rw [← hobs]
  exact List.mem_map_of_mem rowToObservation hmem

/-- Witness for the amended C9: an accepted in-band insert round-trips
bit-for-bit (server-assigned id 3). -/
theorem addObservation_roundtrip_accepted_witness :
    (addObservation dbGuard 1 20 (some 3055) (some "PLN") (some true) (some "T")
        (some "30,55 zł") none = .ok (dbGuardAccepted, 3)) ∧
    ((some 3055 : Option Int) = none ∨
      ∃ p, (some 3055 : Option Int) = some p ∧ 0 < p ∧
        (isOutlier dbGuard 1 p).1 = false) ∧
    ((dbGuard.rows.filter fun r => r.product_id == 1).length < 200) ∧
    ((⟨3, 1, 20, some 3055, some "PLN", some true, some "T", some "30,55 zł",
        none⟩ : Observation) ∈ getHistory dbGuardAccepted 1 200) :=
  ⟨by decide, Or.inr ⟨3055, rfl, by decide, by decide⟩, by decide,
    addObservation_roundtrip_accepted dbGuard 1 20 (some 3055) (some "PLN")
      (some true) (some "T") (some "30,55 zł") none dbGuardAccepted 3
      (by decide) (Or.inr ⟨3055, rfl, by decide, by decide⟩) (by decide)⟩

theorem roundHalfEvenNatDiv_one (a : Nat) : roundHalfEvenNatDiv a 1 = a := by
  unfold roundHalfEvenNatDiv
  simp [Nat.mod_one]

theorem roundHalfEvenNatDiv_nearest (a d : Nat) (hd : 0 < d) :
    |((roundHalfEvenNatDiv a d : Int) : ℚ) - (a : ℚ) / (d : ℚ)| ≤ 1 / 2 ∧
      (|((roundHalfEvenNatDiv a d : Int) : ℚ) - (a : ℚ) / (d : ℚ)| = 1 / 2 →
        Even (roundHalfEvenNatDiv a d)) := by
  have hd0 : (d : ℚ) ≠ 0 := by positivity
  have hdq : (0 : ℚ) < d := by positivity
  set q := a / d with hq
  set r := a % d with hr
  have ha : d * q + r = a := Nat.div_add_mod a d
  have hrd : r < d := Nat.mod_lt _ hd
  have hv : (a : ℚ) / d = (q : ℚ) + (r : ℚ) / d := by
    have : (a : ℚ) = (d : ℚ) * q + r := by
      exact_mod_cast congrArg (Nat.cast : Nat → ℚ) ha.symm
    rw [this]
    field_simp
    ring
  have habs1 : |(q : ℚ) - (a : ℚ) / d| = (r : ℚ) / d := by
    rw [hv]
    rw [show (q : ℚ) - ((q : ℚ) + (r : ℚ) / d) = -((r : ℚ) / d) by ring]
    rw [abs_neg, abs_of_nonneg (by positivity)]
  have habs2 : |(q : ℚ) + 1 - (a : ℚ) / d| = ((d : ℚ) - r) / d := by
    rw [hv]
    rw [show (q : ℚ) + 1 - ((q : ℚ) + (r : ℚ) / d) = ((d : ℚ) - r) / d by
      field_simp
      ring]
    rw [abs_of_nonneg (by
      apply div_nonneg _ (le_of_lt hdq)
      have : (r : ℚ) ≤ d := by exact_mod_cast le_of_lt hrd
      linarith)]
  have hlt : ∀ x : Nat, ((x : ℚ) / d < 1 / 2 ↔ 2 * x < d) := by
    intro x
    rw [div_lt_div_iff hdq (by norm_num)]
    constructor
    · intro h
      exact_mod_cast (by linarith : (2 * x : ℚ) < d)
    · intro h
      have : ((2 * x : Nat) : ℚ) < d := by exact_mod_cast h
      push_cast at this
      linarith
  unfold roundHalfEvenNatDiv
  rw [← hq, ← hr]
  dsimp only
  split_ifs with h1 h2 h3
  · push_cast
    rw [habs1]
    constructor
    · have := (hlt r).mpr h1
      linarith
    · intro hc
      have := (hlt r).mpr h1
      rw [hc] at this
      norm_num at this
  · push_cast
    rw [habs2]
    have h2r : (d : ℚ) < 2 * r := by
      have : ((d : Nat) : ℚ) < ((2 * r : Nat) : ℚ) := by exact_mod_cast h2
      push_cast at this
      linarith
    have hrdq : (r : ℚ) ≤ d := by exact_mod_cast le_of_lt hrd
    constructor
    · rw [div_le_div_iff hdq (by norm_num)]
      linarith
    · intro hc
      rw [div_eq_div_iff hd0 (by norm_num : (2:ℚ) ≠ 0)] at hc
      linarith
  · have htie : 2 * r = d := by omega
    push_cast
    rw [habs1]
    have hhalf : (r : ℚ) / d = 1 / 2 := by
      rw [div_eq_div_iff hd0 (by norm_num : (2:ℚ) ≠ 0)]
      have : ((2 * r : Nat) : ℚ) = d := by
        exact_mod_cast congrArg (Nat.cast : Nat → ℚ) htie
      push_cast at this
      linarith
    rw [hhalf]
    exact ⟨le_refl _, fun _ => (Nat.even_iff).mpr h3⟩
  · have htie : 2 * r = d := by omega
    push_cast
    rw [habs2]
    have hhalf : ((d : ℚ) - r) / d = 1 / 2 := by
      rw [div_eq_div_iff hd0 (by norm_num : (2:ℚ) ≠ 0)]
      have : ((2 * r : Nat) : ℚ) = d := by
        exact_mod_cast congrArg (Nat.cast : Nat → ℚ) htie
      push_cast at this
      linarith
    rw [hhalf]
    refine ⟨le_refl _, fun _ => ?_⟩
    rcases Nat.even_or_odd q with he | ho
    · exact absurd (Nat.even_iff.mp he) h3
    · exact Odd.add_one ho

theorem centsMagnitude_key (c : Nat) (e : Int) :
    |((centsMagnitude c e : Int) : ℚ) - (c * 100 : ℚ) * (10 : ℚ) ^ e| ≤ 1 / 2 ∧
      (|((centsMagnitude c e : Int) : ℚ) - (c * 100 : ℚ) * (10 : ℚ) ^ e| = 1 / 2 →
        Even (centsMagnitude c e)) := by
  by_cases he : (0 : Int) ≤ e
  · have hzero : ((centsMagnitude c e : Int) : ℚ) = (c * 100 : ℚ) * (10 : ℚ) ^ e := by
      rw [centsMagnitude, if_pos he]
      rw [show (10 : ℚ) ^ e = (10 : ℚ) ^ e.toNat by
        rw [← Int.toNat_of_nonneg he, zpow_natCast, Int.toNat_of_nonneg he]]
      push_cast
      ring
    rw [hzero]
    simp
  · push_neg at he
    have hdpos : 0 < 10 ^ (-e).toNat := Nat.pos_pow_of_pos _ (by norm_num)
    have h2 : (10 : ℚ) ^ e = ((10 : ℚ) ^ ((-e).toNat))⁻¹ := by
      rw [← zpow_natCast (10 : ℚ) ((-e).toNat), ← zpow_neg]
      congr 1
      omega
    have h3 : ((10 ^ (-e).toNat : Nat) : ℚ) = (10 : ℚ) ^ ((-e).toNat) := by
      push_cast
      ring
    have hval : (c * 100 : ℚ) * (10 : ℚ) ^ e =
        ((c * 100 : Nat) : ℚ) / ((10 ^ (-e).toNat : Nat) : ℚ) := by
      rw [h2, h3, div_eq_mul_inv]
      push_cast
      ring
    have hcm : centsMagnitude c e = roundHalfEvenNatDiv (c * 100) (10 ^ (-e).toNat) := by
      rw [centsMagnitude, if_neg (by omega)]
    rw [hval, hcm]
    exact roundHalfEvenNatDiv_nearest (c * 100) (10 ^ (-e).toNat) hdpos

theorem decimalToCents_finite_core (ng : Bool) (c : Nat) (e : Int) :
    |((if ng then -(centsMagnitude c e : Int) else (centsMagnitude c e : Int)) : ℚ) -
        100 * decValue ng c e| ≤ 1 / 2 ∧
      (|((if ng then -(centsMagnitude c e : Int) else (centsMagnitude c e : Int)) : ℚ) -
          100 * decValue ng c e| = 1 / 2 →
        Even (if ng then -(centsMagnitude c e : Int) else (centsMagnitude c e : Int))) := by
  have key := centsMagnitude_key c e
  cases ng with
  | false =>
    simp only [Bool.false_eq_true, if_false]
    have harr : 100 * decValue false c e = (c * 100 : ℚ) * (10 : ℚ) ^ e := by
      unfold decValue
      simp only [Bool.false_eq_true, if_false]
      ring
    rw [harr]
    exact ⟨key.1, fun hc => (Int.even_coe_nat _).mpr (key.2 hc)⟩
  | true =>
    simp only [if_true]
    have harr : 100 * decValue true c e = -((c * 100 : ℚ) * (10 : ℚ) ^ e) := by
      unfold decValue
      simp only [if_true]
      ring
    rw [harr]
    push_cast at key ⊢
    rw [neg_sub_neg, abs_sub_comm]
    refine ⟨key.1, fun hc => ?_⟩
    rw [even_neg]
    exact_mod_cast key.2 hc


/-- **C6 (amended).**  `to_minor_units` is deterministic and, contrary to the
claim as stated, not exception-free: on strings that `Decimal` parses as
Infinity or NaN, and on results exceeding the default 28-digit context
precision or exponent range, an uncaught exception escapes.  Otherwise it is
total: unparseable input yields `None`, and a finite parse whose scaled
coefficient fits the precision yields the value multiplied by 100 and
rounded to the nearest integer (ties to even). -/
theorem decimalToCents_characterization (s : String) :
    (parseDecimal s = none → decimalToCents s = .ok none) ∧
    (∀ ng, parseDecimal s = some (.inf ng) → decimalToCents s = .error ()) ∧
    (parseDecimal s = some .nan → decimalToCents s = .error ()) ∧
    (parseDecimal s = some .snan → decimalToCents s = .error ()) ∧
    (∀ (ng : Bool) (c : Nat) (e : Int), parseDecimal s = some (.finite ng c e) →
      numDigits (c * 100) ≤ 28 →
      e + (numDigits (c * 100) : Int) - 1 ≤ 999999 →
      numDigits (centsMagnitude c e) ≤ 28 →
      ∃ n : Int, decimalToCents s = .ok (some n) ∧
        |(n : ℚ) - 100 * decValue ng c e| ≤ 1 / 2 ∧
        (|(n : ℚ) - 100 * decValue ng c e| = 1 / 2 → Even n)) := by
  refine ⟨?_, ?_, ?_, ?_, ?_⟩
  · intro h
    unfold decimalToCents
    rw [h]
  · intro ng h
    unfold decimalToCents
    rw [h]
  · intro h
    unfold decimalToCents
    rw [h]
  · intro h
    unfold decimalToCents
    rw [h]
  · intro ng c e hparse h28 hof hquant
    unfold decimalToCents
    rw [hparse]
    dsimp only
    simp only [show (numDigits (c * 100) > 28) = False from eq_false (by omega),
      if_false, pow_zero, roundHalfEvenNatDiv_one, Nat.cast_zero, add_zero]
    have hcm : (if (0 : Int) ≤ e then c * 100 * 10 ^ e.toNat
        else roundHalfEvenNatDiv (c * 100) (10 ^ (-e).toNat)) = centsMagnitude c e := rfl
    rw [hcm]
    rw [if_neg (by omega : ¬ (e + ((numDigits (c * 100) : Nat) : Int) - 1 > 999999))]
    rw [if_neg (by omega : ¬ numDigits (centsMagnitude c e) > 28)]
    refine ⟨(if ng then -(centsMagnitude c e : Int) else (centsMagnitude c e : Int)),
      by cases ng <;> rfl, ?_⟩
    rw [apply_ite (fun z : Int => (z : ℚ))]
    exact decimalToCents_finite_core ng c e


/-- **C6 counterexample.**  The claim's "never raises an exception, for any
input string whatsoever" is false: `"inf"` parses as Infinity and the
quantization raises `InvalidOperation` outside the `try`; `"1e30"` raises
because the scaled result needs more than 28 digits. -/
theorem decimalToCents_raises :
    decimalToCents "inf" = .error () ∧ decimalToCents "1e30" = .error () := by
  decide

/-- Witness for the amended C6 at `"2899.00"` (the spec's own example). -/
theorem decimalToCents_characterization_witness :
    (parseDecimal "2899.00" = some (.finite false 289900 (-2))) ∧
    numDigits (289900 * 100) ≤ 28 ∧
    ((-2 : Int) + (numDigits (289900 * 100) : Int) - 1 ≤ 999999) ∧
    numDigits (centsMagnitude 289900 (-2)) ≤ 28 ∧
    (∃ n : Int, decimalToCents "2899.00" = .ok (some n) ∧
      |(n : ℚ) - 100 * decValue false 289900 (-2)| ≤ 1 / 2 ∧
      (|(n : ℚ) - 100 * decValue false 289900 (-2)| = 1 / 2 → Even n)) :=
  ⟨by decide, by decide, by decide, by decide,
    (decimalToCents_characterization "2899.00").2.2.2.2 false 289900 (-2)
      (by decide) (by decide) (by decide) (by decide)⟩

theorem length_countP_split (l : List Row) (p : Row → Bool) :
    l.length = l.countP p + l.countP (fun a => !p a) := by
  induction l with
  | nil => rfl
  | cons a t ih =>
    rw [List.countP_cons, List.countP_cons]
    cases hpa : p a <;> simp [hpa] <;> omega

theorem countP_id_eq_one (l : List Row) (i : Nat)
    (h : (l.map Row.id).Nodup) (hi : i ∈ l.map Row.id) :
    l.countP (fun r => r.id == i) = 1 := by
  induction l with
  | nil => simp at hi
  | cons a t ih =>
    rw [List.map_cons, List.nodup_cons] at h
    rw [List.countP_cons]
    simp only [List.map_cons, List.mem_cons] at hi
    by_cases hai : a.id = i
    · subst hai
      have : t.countP (fun r => r.id == a.id) = 0 := by
        rw [List.countP_eq_zero]
        intro r hr hc
        apply h.1
        have hcr : r.id = a.id := by simpa using hc
        rw [← hcr]
        exact List.mem_map_of_mem Row.id hr
      simp [this]
    · rcases hi with hi | hi
      · exact absurd hi.symm hai
      · rw [ih h.2 hi]
        simp [hai]

theorem filter_not_mem_ids_length (I : List Nat) : ∀ (l : List Row),
    (l.map Row.id).Nodup → I.Nodup → (∀ i ∈ I, i ∈ l.map Row.id) →
    I.length ≤ l.length ∧
      (l.filter (fun r => !I.contains r.id)).length = l.length - I.length := by
  induction I with
  | nil =>
    intro l _ _ _
    refine ⟨by simp, by simp⟩
  | cons i I' ih =>
    intro l hl hI hsub
    have hiI' : i ∉ I' := (List.nodup_cons.mp hI).1
    have hImem : i ∈ l.map Row.id := hsub i (List.mem_cons_self i I')
    -- split the filter into removing id = i first, then the rest
    have hsplit : (l.filter fun r => !(i :: I').contains r.id) =
        (l.filter fun r => !(r.id == i)).filter fun r => !I'.contains r.id := by
      rw [List.filter_filter]
      apply List.filter_congr
      intro r _
      show (!(i :: I').contains r.id) = (!I'.contains r.id && !(r.id == i))
      show (!(r.id == i || I'.contains r.id)) = _
      cases h1 : r.id == i <;> cases h2 : I'.contains r.id <;> rfl
    set l' := l.filter fun r => !(r.id == i) with hl'
    have hcnt1 : l.countP (fun r => r.id == i) = 1 := countP_id_eq_one l i hl hImem
    have hlen' : l'.length = l.length - 1 := by
      have hsplitlen := length_countP_split l (fun r => r.id == i)
      have : l'.length = l.countP (fun r => !(r.id == i)) := by
        rw [hl', List.countP_eq_length_filter]
      omega
    have hl'nodup : (l'.map Row.id).Nodup :=
      hl.sublist ((List.filter_sublist l).map Row.id)
    have hsub' : ∀ j ∈ I', j ∈ l'.map Row.id := by
      intro j hj
      have hji : j ≠ i := fun hji => hiI' (hji ▸ hj)
      have : j ∈ l.map Row.id := hsub j (List.mem_cons_of_mem i hj)
      obtain ⟨r, hr, hid⟩ := List.mem_map.mp this
      rw [← hid]
      apply List.mem_map_of_mem Row.id
      rw [hl', List.mem_filter]
      refine ⟨hr, ?_⟩
      simp [hid, hji]
    obtain ⟨hle, heq⟩ := ih l' hl'nodup (List.nodup_cons.mp hI).2 hsub'
    rw [hsplit, heq, hlen']
    have hlpos : 1 ≤ l.length := by
      cases l with
      | nil => simp at hImem
      | cons a t => simp
    constructor
    · simp only [List.length_cons]
      omega
    · simp only [List.length_cons]
      omega

theorem recentPricedRows_mem (l : List Row) (pid : Int) (sl : Nat) (r : Row)
    (h : r ∈ recentPricedRows l pid sl) :
    r ∈ l ∧ (r.product_id == pid) = true := by
  unfold recentPricedRows at h
  have h1 := List.mem_of_mem_take h
  rw [(sortTsDesc_perm _).mem_iff] at h1
  have h2 := List.mem_filter.mp h1
  exact ⟨h2.1, by
    have := h2.2
    cases hx : (r.product_id == pid) <;> simp [hx] at this ⊢⟩

theorem recentPricedRows_ids_nodup (l : List Row) (pid : Int) (sl : Nat)
    (h : (l.map Row.id).Nodup) :
    ((recentPricedRows l pid sl).map Row.id).Nodup := by
  unfold recentPricedRows
  have hfil : ((l.filter fun r =>
      r.product_id == pid && r.price_cents.isSome).map Row.id).Nodup :=
    h.sublist ((List.filter_sublist l).map Row.id)
  have hsort : ((sortTsDesc (l.filter fun r =>
      r.product_id == pid && r.price_cents.isSome)).map Row.id).Nodup :=
    (((sortTsDesc_perm _).map Row.id).nodup_iff).mpr hfil
  exact hsort.sublist ((List.take_sublist _ _).map Row.id)


theorem cleanStep_cases (f : ℚ) (ms sl : Nat) (acc : List Row × Nat) (pid : Int)
    (h : (acc.1.map Row.id).Nodup) :
    cleanStep f ms sl acc pid = acc ∨
    ∃ I : List Nat, I.Nodup ∧ (∀ i ∈ I, ∃ r ∈ recentPricedRows acc.1 pid sl, r.id = i) ∧
      cleanStep f ms sl acc pid =
        (acc.1.filter (fun r => !I.contains r.id), acc.2 + I.length) := by
  unfold cleanStep
  dsimp only
  split_ifs with h1 h2
  · exact Or.inl rfl
  · exact Or.inl rfl
  · right
    refine ⟨_, ?_, ?_, rfl⟩
    · exact (recentPricedRows_ids_nodup acc.1 pid sl h).sublist
        ((List.filter_sublist _).map Row.id)
    · intro i hi
      obtain ⟨r, hr, hid⟩ := List.mem_map.mp hi
      exact ⟨r, (List.mem_filter.mp hr).1, hid⟩


theorem cleanStep_nodup (f : ℚ) (ms sl : Nat) (acc : List Row × Nat) (pid : Int)
    (h : (acc.1.map Row.id).Nodup) :
    (((cleanStep f ms sl acc pid).1).map Row.id).Nodup := by
  rcases cleanStep_cases f ms sl acc pid h with heq | ⟨I, -, -, heq⟩
  · rw [heq]
    exact h
  · rw [heq]
    exact h.sublist ((List.filter_sublist _).map Row.id)

theorem cleanStep_count (f : ℚ) (ms sl : Nat) (acc : List Row × Nat) (pid : Int)
    (h : (acc.1.map Row.id).Nodup) :
    (cleanStep f ms sl acc pid).2 + ((cleanStep f ms sl acc pid).1).length =
      acc.2 + acc.1.length := by
  rcases cleanStep_cases f ms sl acc pid h with heq | ⟨I, hnd, hmemI, heq⟩
  · rw [heq]
  · rw [heq]
    have hsub : ∀ i ∈ I, i ∈ acc.1.map Row.id := by
      intro i hi
      obtain ⟨r, hr, hid⟩ := hmemI i hi
      rw [← hid]
      exact List.mem_map_of_mem Row.id (recentPricedRows_mem acc.1 pid sl r hr).1
    obtain ⟨hle, hlen⟩ := filter_not_mem_ids_length I acc.1 h hnd hsub
    dsimp only
    omega

theorem cleanStep_keeps (f : ℚ) (ms sl : Nat) (acc : List Row × Nat) (pid : Int)
    (r : Row) (h : (acc.1.map Row.id).Nodup) (hr : r ∈ acc.1)
    (hcase : pid ≠ r.product_id ∨ r ∉ recentPricedRows acc.1 pid sl) :
    r ∈ (cleanStep f ms sl acc pid).1 := by
  rcases cleanStep_cases f ms sl acc pid h with heq | ⟨I, -, hmemI, heq⟩
  · rw [heq]
    exact hr
  · rw [heq]
    rw [List.mem_filter]
    refine ⟨hr, ?_⟩
    suffices hs : r.id ∉ I by
      cases hc : I.contains r.id
      · rfl
      · exact absurd (List.elem_iff.mp hc) hs
    intro hin
    obtain ⟨r', hr', hid⟩ := hmemI r.id hin
    have hr'acc := (recentPricedRows_mem acc.1 pid sl r' hr').1
    have : r' = r := List.inj_on_of_nodup_map h hr'acc hr hid
    subst this
    rcases hcase with hc | hc
    · apply hc
      have h3 : r'.product_id = pid := by
        simpa using (recentPricedRows_mem acc.1 pid sl r' hr').2
      exact h3.symm
    · exact hc hr'

theorem cleanStep_filter_product (f : ℚ) (ms sl : Nat) (acc : List Row × Nat)
    (pid q : Int) (h : (acc.1.map Row.id).Nodup) (hq : pid ≠ q) :
    ((cleanStep f ms sl acc pid).1).filter (fun x => x.product_id == q) =
      acc.1.filter (fun x => x.product_id == q) := by
  rcases cleanStep_cases f ms sl acc pid h with heq | ⟨I, -, hmemI, heq⟩
  · rw [heq]
  · rw [heq]
    dsimp only
    rw [List.filter_comm]
    apply List.filter_eq_self.mpr
    intro x hx
    rw [List.mem_filter] at hx
    suffices hs : x.id ∉ I by
      cases hc : I.contains x.id
      · rfl
      · exact absurd (List.elem_iff.mp hc) hs
    intro hin
    obtain ⟨r', hr', hid⟩ := hmemI x.id hin
    have hr'acc := (recentPricedRows_mem acc.1 pid sl r' hr').1
    have heqr : r' = x := List.inj_on_of_nodup_map h hr'acc hx.1 hid
    apply hq
    have := (recentPricedRows_mem acc.1 pid sl r' hr').2
    rw [heqr] at this
    have h2 := hx.2
    have hxpid : x.product_id = pid := by simpa using this
    have hxq : x.product_id = q := by simpa using h2
    rw [← hxpid, hxq]

theorem recentPricedRows_congr (l l' : List Row) (pid : Int) (sl : Nat)
    (h : l.filter (fun x => x.product_id == pid) =
      l'.filter (fun x => x.product_id == pid)) :
    recentPricedRows l pid sl = recentPricedRows l' pid sl := by
  unfold recentPricedRows
  congr 1
  congr 1
  have hsplit : ∀ m : List Row,
      m.filter (fun r => r.product_id == pid && r.price_cents.isSome) =
        (m.filter (fun x => x.product_id == pid)).filter
          (fun r => r.price_cents.isSome) := by
    intro m
    rw [List.filter_filter]
    apply List.filter_congr
    intro x _
    cases h1 : (x.product_id == pid) <;> cases h2 : x.price_cents.isSome <;> rfl
  rw [hsplit, hsplit, h]


theorem foldl_cleanStep_count (f : ℚ) (ms sl : Nat) (ps : List Int) :
    ∀ acc : List Row × Nat, (acc.1.map Row.id).Nodup →
      (((ps.foldl (cleanStep f ms sl) acc).1).map Row.id).Nodup ∧
        (ps.foldl (cleanStep f ms sl) acc).2 +
          ((ps.foldl (cleanStep f ms sl) acc).1).length = acc.2 + acc.1.length := by
  induction ps with
  | nil =>
    intro acc h
    exact ⟨h, rfl⟩
  | cons pid ps' ih =>
    intro acc h
    have hstep := cleanStep_nodup f ms sl acc pid h
    obtain ⟨hnd, hcnt⟩ := ih (cleanStep f ms sl acc pid) hstep
    refine ⟨hnd, ?_⟩
    rw [List.foldl_cons, hcnt, cleanStep_count f ms sl acc pid h]

theorem foldl_cleanStep_keeps (f : ℚ) (ms sl : Nat) (keep : List Row) (r : Row)
    (hkeep : r ∉ recentPricedRows keep r.product_id sl) :
    ∀ ps : List Int, ps.Nodup → ∀ acc : List Row × Nat,
      (acc.1.map Row.id).Nodup → r ∈ acc.1 →
      (r.product_id ∈ ps →
        acc.1.filter (fun x => x.product_id == r.product_id) =
          keep.filter (fun x => x.product_id == r.product_id)) →
      r ∈ (ps.foldl (cleanStep f ms sl) acc).1 := by
  intro ps
  induction ps with
  | nil =>
    intro _ acc _ hr _
    exact hr
  | cons pid ps' ih =>
    intro hps acc hnd hr hfil
    rw [List.foldl_cons]
    have hndcons := List.nodup_cons.mp hps
    by_cases hpid : pid = r.product_id
    · have hfileq := hfil (by rw [hpid]; exact List.mem_cons_self _ _)
      have hwin : recentPricedRows acc.1 pid sl = recentPricedRows keep pid sl := by
        apply recentPricedRows_congr
        rw [hpid, hfileq]
      have hr' : r ∈ (cleanStep f ms sl acc pid).1 := by
        apply cleanStep_keeps f ms sl acc pid r hnd hr
        right
        rw [hwin, hpid]
        exact hkeep
      apply ih hndcons.2 _ (cleanStep_nodup f ms sl acc pid hnd) hr'
      intro hmem
      exact absurd (hpid ▸ hmem) hndcons.1
    · have hr' : r ∈ (cleanStep f ms sl acc pid).1 :=
        cleanStep_keeps f ms sl acc pid r hnd hr (Or.inl hpid)
      apply ih hndcons.2 _ (cleanStep_nodup f ms sl acc pid hnd) hr'
      intro hmem
      rw [cleanStep_filter_product f ms sl acc pid r.product_id hnd hpid]
      exact hfil (List.mem_cons_of_mem _ hmem)


theorem cleanStep_deletes (f : ℚ) (ms sl : Nat) (acc : List Row × Nat)
    (pid : Int) (r : Row)
    (hms : ms ≤ ((recentPricedRows acc.1 pid sl).filterMap
      (·.price_cents)).length)
    (hmed : 0 < median ((recentPricedRows acc.1 pid sl).filterMap
      (·.price_cents)))
    (hr : r ∈ recentPricedRows acc.1 pid sl)
    (hband : (r.price_cents.getD 0 : ℚ) <
        ratDiv (median ((recentPricedRows acc.1 pid sl).filterMap
          (·.price_cents))) f ∨
      ratMul (median ((recentPricedRows acc.1 pid sl).filterMap
        (·.price_cents))) f < (r.price_cents.getD 0 : ℚ)) :
    r ∉ (cleanStep f ms sl acc pid).1 := by
  unfold cleanStep
  dsimp only
  split_ifs with h1 h2
  · exact absurd h1 (not_lt.mpr hms)
  · exact absurd h2 (not_le.mpr hmed)
  · intro hmem
    simp only [List.mem_filter] at hmem
    have hrid : r.id ∈ ((recentPricedRows acc.1 pid sl).filter fun x =>
        decide ((x.price_cents.getD 0 : ℚ) <
            ratDiv (median ((recentPricedRows acc.1 pid sl).filterMap
              (·.price_cents))) f ∨
          ratMul (median ((recentPricedRows acc.1 pid sl).filterMap
            (·.price_cents))) f < (x.price_cents.getD 0 : ℚ))).map (·.id) :=
      List.mem_map_of_mem (fun x => x.id)
        (List.mem_filter.mpr ⟨hr, decide_eq_true hband⟩)
    have hgen : ∀ (l : List Nat) (i : Nat), i ∈ l → (!l.contains i) ≠ true := by
      intro l i hi hc
      rw [Bool.not_eq_true'] at hc
      have hct : l.contains i = true := List.elem_iff.mpr hi
      rw [hct] at hc
      exact Bool.noConfusion hc
    exact hgen _ r.id hrid hmem.2

theorem foldl_cleanStep_deletes (f : ℚ) (ms sl : Nat) (keep : List Row)
    (pid : Int) (r : Row)
    (hms : ms ≤ ((recentPricedRows keep pid sl).filterMap
      (·.price_cents)).length)
    (hmed : 0 < median ((recentPricedRows keep pid sl).filterMap
      (·.price_cents)))
    (hr : r ∈ recentPricedRows keep pid sl)
    (hband : (r.price_cents.getD 0 : ℚ) <
        ratDiv (median ((recentPricedRows keep pid sl).filterMap
          (·.price_cents))) f ∨
      ratMul (median ((recentPricedRows keep pid sl).filterMap
        (·.price_cents))) f < (r.price_cents.getD 0 : ℚ)) :
    ∀ ps : List Int, pid ∈ ps → ∀ acc : List Row × Nat,
      (acc.1.map Row.id).Nodup →
      acc.1.filter (fun x => x.product_id == pid) =
        keep.filter (fun x => x.product_id == pid) →
      r ∉ (ps.foldl (cleanStep f ms sl) acc).1 := by
  intro ps
  induction ps with
  | nil =>
    intro h
    exact absurd h (List.not_mem_nil pid)
  | cons p ps' ih =>
    intro hpid acc hnd hfil
    rw [List.foldl_cons]
    by_cases hp : p = pid
    · subst hp
      have hwin : recentPricedRows acc.1 p sl = recentPricedRows keep p sl :=
        recentPricedRows_congr _ _ _ _ hfil
      have hdel : r ∉ (cleanStep f ms sl acc p).1 := by
        apply cleanStep_deletes f ms sl acc p r
        · rw [hwin]
          exact hms
        · rw [hwin]
          exact hmed
        · rw [hwin]
          exact hr
        · rw [hwin]
          exact hband
      intro hmem
      exact hdel (foldl_cleanStep_mem f ms sl ps' (cleanStep f ms sl acc p)
        r hmem)
    · rcases List.mem_cons.mp hpid with heq | hmem'
      · exact absurd heq.symm hp
      · refine ih hmem' (cleanStep f ms sl acc p)
          (cleanStep_nodup f ms sl acc p hnd) ?_
        rw [cleanStep_filter_product f ms sl acc p pid hnd hp]
        exact hfil


/-- **C8 (amended).**  `clean_price_outliers` deletes every stored
non-positive-priced row; per product it re-scans only the up to
`sample_limit` (default 200) most recent priced rows: when at least
`min_samples` of them exist with a positive median, every fetched row priced
outside `[median / factor, median * factor]` is deleted, while priced rows
older than the scan window are never deleted; the returned count equals the
number of rows actually removed (stated as count + surviving rows = original
rows, under primary-key uniqueness of row ids); and `Database.init` runs
exactly this cleanup with its default parameters as its final step. -/
theorem cleanPriceOutliers_window (db : DB) (f : ℚ) (ms sl : Nat) :
    (∀ r ∈ (cleanPriceOutliers db f ms sl).1.rows, ∀ p : Int,
      r.price_cents = some p → 0 < p) ∧
    ((db.rows.map Row.id).Nodup →
      (cleanPriceOutliers db f ms sl).2 +
        ((cleanPriceOutliers db f ms sl).1.rows).length = db.rows.length) ∧
    ((db.rows.map Row.id).Nodup → db.products.Nodup →
      ∀ r ∈ db.rows, ∀ p : Int, r.price_cents = some p → 0 < p →
        r ∉ recentPricedRows (db.rows.filter fun x => !nonPosRow x)
          r.product_id sl →
        r ∈ (cleanPriceOutliers db f ms sl).1.rows) ∧
    ((db.rows.map Row.id).Nodup →
      ∀ pid ∈ db.products,
        ms ≤ ((recentPricedRows (db.rows.filter fun x => !nonPosRow x) pid
          sl).filterMap (·.price_cents)).length →
        0 < median ((recentPricedRows (db.rows.filter fun x => !nonPosRow x)
          pid sl).filterMap (·.price_cents)) →
        ∀ r ∈ recentPricedRows (db.rows.filter fun x => !nonPosRow x) pid sl,
          ((r.price_cents.getD 0 : ℚ) <
              median ((recentPricedRows (db.rows.filter fun x => !nonPosRow x)
                pid sl).filterMap (·.price_cents)) / f ∨
            median ((recentPricedRows (db.rows.filter fun x => !nonPosRow x)
              pid sl).filterMap (·.price_cents)) * f <
              (r.price_cents.getD 0 : ℚ)) →
          r ∉ (cleanPriceOutliers db f ms sl).1.rows) ∧
    dbInit db = (cleanPriceOutliers db 6 3 200).1 := by
  refine ⟨?_, ?_, ?_, ?_, rfl⟩
  · intro r hr p hp
    have := (cleanPriceOutliers_row_mem db f ms sl r hr).2
    unfold nonPosRow at this
    rw [hp] at this
    simp at this
    omega
  · intro hnd
    unfold cleanPriceOutliers
    dsimp only
    have hkeepnd : ((db.rows.filter fun r => !nonPosRow r).map Row.id).Nodup :=
      hnd.sublist ((List.filter_sublist _).map Row.id)
    obtain ⟨-, hcnt⟩ := foldl_cleanStep_count f ms sl db.products
      (db.rows.filter fun r => !nonPosRow r,
        db.rows.countP fun r => nonPosRow r) hkeepnd
    rw [hcnt]
    have h1 := length_countP_split db.rows nonPosRow
    have h2 : (db.rows.filter fun r => !nonPosRow r).length =
        db.rows.countP fun r => !nonPosRow r :=
      (List.countP_eq_length_filter _ _).symm
    have h3 : ((db.rows.filter fun r => !nonPosRow r,
        db.rows.countP fun r => nonPosRow r) : List Row × Nat).1.length =
        (db.rows.filter fun r => !nonPosRow r).length := rfl
    have h4 : (db.rows.countP fun r => nonPosRow r) = db.rows.countP nonPosRow := rfl
    have h5 : (db.rows.countP fun r => !nonPosRow r) =
        db.rows.countP fun r => !nonPosRow r := rfl
    omega
  · intro hnd hprodnd r hr p hp hpos hnotwin
    unfold cleanPriceOutliers
    dsimp only
    have hkeepnd : ((db.rows.filter fun x => !nonPosRow x).map Row.id).Nodup :=
      hnd.sublist ((List.filter_sublist _).map Row.id)
    have hrkeep : r ∈ db.rows.filter fun x => !nonPosRow x := by
      rw [List.mem_filter]
      refine ⟨hr, ?_⟩
      unfold nonPosRow
      rw [hp]
      simp
      omega
    exact foldl_cleanStep_keeps f ms sl (db.rows.filter fun x => !nonPosRow x)
      r hnotwin db.products hprodnd _ hkeepnd hrkeep (fun _ => rfl)
  · intro hnd pid hpid hms hmed r hrw hband
    unfold cleanPriceOutliers
    dsimp only
    have hkeepnd : ((db.rows.filter fun x => !nonPosRow x).map Row.id).Nodup :=
      hnd.sublist ((List.filter_sublist _).map Row.id)
    have hband' : (r.price_cents.getD 0 : ℚ) <
        ratDiv (median ((recentPricedRows (db.rows.filter fun x => !nonPosRow x)
          pid sl).filterMap (·.price_cents))) f ∨
        ratMul (median ((recentPricedRows (db.rows.filter fun x => !nonPosRow x)
          pid sl).filterMap (·.price_cents))) f <
          (r.price_cents.getD 0 : ℚ) := by
      rw [ratDiv_eq, ratMul_eq]
      exact hband
    exact foldl_cleanStep_deletes f ms sl
      (db.rows.filter fun x => !nonPosRow x) pid r hms hmed hrw hband'
      db.products hpid _ hkeepnd rfl

/-- Witness for the amended C8 on `dbGuardDirty` with the default
parameters: the in-window outlier row (price 10^6 against window median 3075)
is actually deleted, the count accounting holds, and `dbInit` is the default
cleanup. -/
theorem cleanPriceOutliers_window_witness :
    ((dbGuardDirty.rows.map Row.id).Nodup) ∧
    ((1 : Int) ∈ dbGuardDirty.products) ∧
    (3 ≤ ((recentPricedRows (dbGuardDirty.rows.filter fun x => !nonPosRow x) 1
      200).filterMap (·.price_cents)).length) ∧
    (0 < median ((recentPricedRows
      (dbGuardDirty.rows.filter fun x => !nonPosRow x) 1
      200).filterMap (·.price_cents))) ∧
    ((⟨3, 1, 13, some 1000000, none, none, none, none, none⟩ : Row) ∈
      recentPricedRows (dbGuardDirty.rows.filter fun x => !nonPosRow x) 1 200) ∧
    (median ((recentPricedRows
        (dbGuardDirty.rows.filter fun x => !nonPosRow x) 1
        200).filterMap (·.price_cents)) * 6 <
      (((⟨3, 1, 13, some 1000000, none, none, none, none, none⟩ :
        Row).price_cents.getD 0 : ℚ))) ∧
    ((⟨3, 1, 13, some 1000000, none, none, none, none, none⟩ : Row) ∉
      (cleanPriceOutliers dbGuardDirty 6 3 200).1.rows) ∧
    ((cleanPriceOutliers dbGuardDirty 6 3 200).2 +
      ((cleanPriceOutliers dbGuardDirty 6 3 200).1.rows).length =
        dbGuardDirty.rows.length) ∧
    dbInit dbGuardDirty = (cleanPriceOutliers dbGuardDirty 6 3 200).1 :=
  ⟨by decide, by decide, by decide, by decide, by decide,
    by rw [← ratMul_eq]; decide,
    (cleanPriceOutliers_window dbGuardDirty 6 3 200).2.2.2.1 (by decide) 1
      (by decide) (by decide) (by decide)
      ⟨3, 1, 13, some 1000000, none, none, none, none, none⟩ (by decide)
      (Or.inr (by rw [← ratMul_eq]; decide)),
    (cleanPriceOutliers_window dbGuardDirty 6 3 200).2.1 (by decide),
    (cleanPriceOutliers_window dbGuardDirty 6 3 200).2.2.2.2⟩



set_option maxRecDepth 1000000

/-- **C8 counterexample.**  The claim's "re-scans all of that product's
stored history" is false: in `dbBig` the old row priced `10^9` lies outside
`[median/6, median·6]` for the fresh median 1000 (computed over all stored
history or over the recent window alike), yet `clean_price_outliers` keeps
it, because only the 200 most recent priced rows are fetched for deletion. -/
theorem cleanPriceOutliers_misses_old_outlier :
    oldOutlierRow ∈ dbBig.rows ∧
    oldOutlierRow.price_cents = some 1000000000 ∧
    oldOutlierRow ∈ (cleanPriceOutliers dbBig 6 3 200).1.rows ∧
    median ((dbBig.rows.filter (fun r =>
      r.product_id == 1 && r.price_cents.isSome)).filterMap (·.price_cents)) = 1000 ∧
    median ((recentPricedRows dbBig.rows 1 200).filterMap (·.price_cents)) = 1000 ∧
    (1000 : ℚ) * 6 < ((1000000000 : Int) : ℚ) := by
  refine ⟨by decide, by decide, by decide, by decide, by decide, ?_⟩
  rw [← ratMul_eq]
  decide

end ElPriceChecker
